import Mathlib

set_option maxHeartbeats 2000000
set_option maxRecDepth 4000

/-!
Shallow embedding of the tegra_swizzle core (block-linear tiling for the
Tegra X1) and proofs about it.  Definitions are translated from the Rust
sources: `src/src/swizzle.rs`, `src/src/surface.rs`, `src/src/arrays.rs`,
`src/tegra_swizzle/src/lib.rs`, `src/tegra_swizzle/src/blockheight.rs` and
`src/tegra_swizzle/src/blockdepth.rs`.  Byte buffers (`Vec<u8>`, `&[u8]`)
are modelled as `List UInt8`; `usize`/`u32` arithmetic is modelled on `Nat`
(no silent wraparound occurs on the validated ranges the library accepts,
and `u32` overflow checks are modelled explicitly where the code performs
them).  Rust indexed writes `dst[i] = v` become `List.set`, and the two
directions of the const-generic `swizzle_inner::<DESWIZZLE>` become a list
of (linear index, swizzled index) byte moves applied in one direction or
the other.
-/

namespace TegraSwizzle

/-- GOB width constant from `src/tegra_swizzle/src/lib.rs`. -/
def GOB_WIDTH_IN_BYTES : Nat := 64

/-- GOB height constant from `src/tegra_swizzle/src/lib.rs`. -/
def GOB_HEIGHT_IN_BYTES : Nat := 8

/-- GOB size constant from `src/tegra_swizzle/src/lib.rs`. -/
def GOB_SIZE_IN_BYTES : Nat := GOB_WIDTH_IN_BYTES * GOB_HEIGHT_IN_BYTES

/-- Embedding of `div_round_up` from `src/tegra_swizzle/src/lib.rs`. -/
def div_round_up (x d : Nat) : Nat := (x + d - 1) / d

/-- Embedding of `round_up` from `src/tegra_swizzle/src/lib.rs`. -/
def round_up (x n : Nat) : Nat := ((x + n - 1) / n) * n

/-- Embedding of `width_in_gobs` from `src/tegra_swizzle/src/lib.rs`. -/
def width_in_gobs (width bytes_per_pixel : Nat) : Nat :=
  div_round_up (width * bytes_per_pixel) GOB_WIDTH_IN_BYTES

/-- Embedding of `height_in_blocks` from `src/tegra_swizzle/src/lib.rs`. -/
def height_in_blocks (height block_height : Nat) : Nat :=
  div_round_up height (block_height * GOB_HEIGHT_IN_BYTES)

/-- Embedding of the `BlockHeight` enum from `src/tegra_swizzle/src/lib.rs`. -/
inductive BlockHeight where
  | One
  | Two
  | Four
  | Eight
  | Sixteen
  | ThirtyTwo
  deriving DecidableEq, Repr

/-- The integer value of a `BlockHeight` (the Rust `as usize` cast). -/
def BlockHeight.toNat : BlockHeight → Nat
  | .One => 1
  | .Two => 2
  | .Four => 4
  | .Eight => 8
  | .Sixteen => 16
  | .ThirtyTwo => 32

/-- Embedding of `BlockHeight::new` from `src/tegra_swizzle/src/lib.rs`. -/
def BlockHeight.new (value : Nat) : Option BlockHeight :=
  match value with
  | 1 => some .One
  | 2 => some .Two
  | 4 => some .Four
  | 8 => some .Eight
  | 16 => some .Sixteen
  | 32 => some .ThirtyTwo
  | _ => none

/-- Embedding of the `SwizzleError` enum.  The `NotEnoughData` variant is in
`src/tegra_swizzle/src/lib.rs`; the `InvalidSurface` variant with fields
`width, height, depth, bytes_per_pixel, mipmap_count` is the one constructed
by `validate_surface` in `src/src/surface.rs` (its declaring `lib.rs` is not
in the snapshot; the fields follow the spec's data model and the
construction site). -/
inductive SwizzleError where
  | NotEnoughData (expected_size actual_size : Nat)
  | InvalidSurface (width height depth bytes_per_pixel mipmap_count : Nat)
  deriving DecidableEq, Repr

instance {e a : Type} [DecidableEq e] [DecidableEq a] : DecidableEq (Except e a) :=
  fun x y =>
    match x, y with
    | .error v, .error w =>
      if h : v = w then .isTrue (by rw [h]) else
        .isFalse (by intro hc; injection hc; contradiction)
    | .error _, .ok _ => .isFalse (by intro hc; cases hc)
    | .ok _, .error _ => .isFalse (by intro hc; cases hc)
    | .ok v, .ok w =>
      if h : v = w then .isTrue (by rw [h]) else
        .isFalse (by intro hc; injection hc; contradiction)

/-- Embedding of `block_height_mip0` from `src/tegra_swizzle/src/blockheight.rs`. -/
def block_height_mip0 (height : Nat) : BlockHeight :=
  let height_and_half := height + height / 2
  if height_and_half ≥ 128 then .Sixteen
  else if height_and_half ≥ 64 then .Eight
  else if height_and_half ≥ 32 then .Four
  else if height_and_half ≥ 16 then .Two
  else .One

/-- Fuel-indexed body of a Rust `while` loop that halves its variable while
`cond` holds.  Every iteration of the loops embedded this way requires
`1 < v` and replaces `v` by `v / 2`, so a fuel equal to the initial value is
always enough; `halveWhile_eq` below recovers the exact loop equation. -/
def halveWhileAux (cond : Nat → Bool) : Nat → Nat → Nat
  | 0, v => v
  | fuel + 1, v => if cond v then halveWhileAux cond fuel (v / 2) else v

/-- A Rust `while cond(v) { v /= 2 }` loop (see `halveWhileAux`). -/
def halveWhile (cond : Nat → Bool) (v : Nat) : Nat := halveWhileAux cond v v

/-- The integer halving loop inside `mip_block_height`
(`src/tegra_swizzle/src/blockheight.rs`):
`while mip_height <= (block_height / 2) * 8 && block_height > 1 { block_height /= 2 }`. -/
def mipBlockHeightLoop (mip_height block_height : Nat) : Nat :=
  halveWhile (fun bh => decide (mip_height ≤ bh / 2 * 8 ∧ bh > 1)) block_height

/-- Embedding of `mip_block_height` from `src/tegra_swizzle/src/blockheight.rs`.
The Rust `BlockHeight::new(block_height).unwrap()` is modelled by `Option.getD`;
the theorem for C8 shows the `none` default is never taken. -/
def mip_block_height (mip_height : Nat) (block_height_mip0 : BlockHeight) : BlockHeight :=
  (BlockHeight.new (mipBlockHeightLoop mip_height block_height_mip0.toNat)).getD .One

/-- Embedding of `block_depth` from `src/tegra_swizzle/src/blockdepth.rs`. -/
def block_depth (depth : Nat) : Nat :=
  let depth_and_half := depth + depth / 2
  if depth_and_half ≥ 16 then 16
  else if depth_and_half ≥ 8 then 8
  else if depth_and_half ≥ 4 then 4
  else if depth_and_half ≥ 2 then 2
  else 1

/-- Modelled from the spec: the two-argument `mip_block_depth(mip_depth, block_depth_mip0)`
called by `src/src/surface.rs` is not in the snapshot (only an older
three-argument version is).  Per spec section 4.1 it applies "the same halving
rule" as the block-height case, without the factor 8 used for heights. -/
def mip_block_depth (mip_depth block_depth_mip0 : Nat) : Nat :=
  halveWhile (fun gd => decide (mip_depth ≤ gd / 2 ∧ gd > 1)) block_depth_mip0

/-- Embedding of `slice_size` from `src/src/swizzle.rs`. -/
def slice_size (block_height block_depth widthInGobs height : Nat) : Nat :=
  let rob_size := GOB_SIZE_IN_BYTES * block_height * block_depth * widthInGobs
  div_round_up height (block_height * GOB_HEIGHT_IN_BYTES) * rob_size

/-- Embedding of `gob_address_z` from `src/src/swizzle.rs`; `z & (block_depth - 1)`
is `Nat.land`. -/
def gob_address_z (z block_height block_depth sliceSize : Nat) : Nat :=
  z / block_depth * sliceSize +
    Nat.land z (block_depth - 1) * GOB_SIZE_IN_BYTES * block_height

/-- Embedding of `gob_address_y` from `src/src/swizzle.rs`. -/
def gob_address_y (y block_height_in_bytes block_size_in_bytes image_width_in_gobs : Nat) : Nat :=
  let block_y := y / block_height_in_bytes
  let block_inner_row := y % block_height_in_bytes / GOB_HEIGHT_IN_BYTES
  block_y * block_size_in_bytes * image_width_in_gobs + block_inner_row * GOB_SIZE_IN_BYTES

/-- Embedding of `gob_address_x` from `src/src/swizzle.rs`. -/
def gob_address_x (x block_size_in_bytes : Nat) : Nat :=
  x / GOB_WIDTH_IN_BYTES * block_size_in_bytes

/-- Embedding of `gob_offset` from `src/src/swizzle.rs`. -/
def gob_offset (x y : Nat) : Nat :=
  x % 64 / 32 * 256 + y % 8 / 2 * 64 + x % 32 / 16 * 32 + y % 2 * 16 + x % 16

/-- Embedding of the `GOB_ROW_OFFSETS` constant from `src/src/swizzle.rs`. -/
def GOB_ROW_OFFSETS : List Nat := [0, 16, 64, 80, 128, 144, 192, 208]

/-- Embedding of `swizzled_mip_size` from `src/src/swizzle.rs`. -/
def swizzled_mip_size (width height depth : Nat) (block_height : BlockHeight)
    (bytes_per_pixel : Nat) : Nat :=
  let widthInGobs := width_in_gobs width bytes_per_pixel
  let heightInBlocks := height_in_blocks height block_height.toNat
  let height_in_gobs := heightInBlocks * block_height.toNat
  let depth_in_gobs := round_up depth (block_depth depth)
  let num_gobs := widthInGobs * height_in_gobs * depth_in_gobs
  num_gobs * GOB_SIZE_IN_BYTES

/-- Embedding of `deswizzled_mip_size` from `src/src/swizzle.rs`. -/
def deswizzled_mip_size (width height depth bytes_per_pixel : Nat) : Nat :=
  width * height * depth * bytes_per_pixel

/-- The iteration values of Rust `(0..bound).step_by(step)`. -/
def stepBy (bound step : Nat) : List Nat :=
  (List.range (div_round_up bound step)).map (· * step)

/-- A byte move `(dst, src)` is the Rust statement `destination[dst] = source[src]`.
`applyMoves` runs a list of moves left to right, as the Rust loops do; like
`Vec` writes with in-bounds indices, `List.set` leaves the length unchanged. -/
def applyMoves (source : List UInt8) (moves : List (Nat × Nat))
    (destination : List UInt8) : List UInt8 :=
  moves.foldl (fun dst m => dst.set m.1 (source.getD m.2 0)) destination

/-- Byte moves of `deswizzle_gob_row` from `src/src/swizzle.rs`: four 16-byte
`copy_from_slice` calls, at destination offsets 48, 32, 16, 0 from source
offsets 288, 256, 32, 0 (in that order). -/
def deswizzle_gob_row_moves (dst_offset src_offset : Nat) : List (Nat × Nat) :=
  ((List.range 16).map fun j => (dst_offset + 48 + j, src_offset + 288 + j)) ++
  ((List.range 16).map fun j => (dst_offset + 32 + j, src_offset + 256 + j)) ++
  ((List.range 16).map fun j => (dst_offset + 16 + j, src_offset + 32 + j)) ++
  ((List.range 16).map fun j => (dst_offset + j, src_offset + j))

/-- Byte moves of `deswizzle_complete_gob` from `src/src/swizzle.rs`: one
`deswizzle_gob_row` per entry of `GOB_ROW_OFFSETS`.  Destination indices are
relative to the linear buffer slice, source indices to the 512-byte GOB. -/
def deswizzle_complete_gob_moves (dst_base src_base row_size_in_bytes : Nat) :
    List (Nat × Nat) :=
  (GOB_ROW_OFFSETS.enum.map fun io =>
    deswizzle_gob_row_moves (dst_base + row_size_in_bytes * io.1) (src_base + io.2)).flatten

/-- Byte moves of `swizzle_gob_row` from `src/src/swizzle.rs` (the deswizzle
row with the addresses swapped, copy order 288, 256, 32, 0). -/
def swizzle_gob_row_moves (dst_offset src_offset : Nat) : List (Nat × Nat) :=
  ((List.range 16).map fun j => (dst_offset + 288 + j, src_offset + 48 + j)) ++
  ((List.range 16).map fun j => (dst_offset + 256 + j, src_offset + 32 + j)) ++
  ((List.range 16).map fun j => (dst_offset + 32 + j, src_offset + 16 + j)) ++
  ((List.range 16).map fun j => (dst_offset + j, src_offset + j))

/-- Byte moves of `swizzle_complete_gob` from `src/src/swizzle.rs`. -/
def swizzle_complete_gob_moves (dst_base src_base row_size_in_bytes : Nat) :
    List (Nat × Nat) :=
  (GOB_ROW_OFFSETS.enum.map fun io =>
    swizzle_gob_row_moves (dst_base + io.2) (src_base + row_size_in_bytes * io.1)).flatten

/-- Byte moves of `swizzle_deswizzle_gob` from `src/src/swizzle.rs`, as
(linear index, swizzled index) pairs: the 64×8 rectangle is walked
byte-by-byte, skipping bytes outside the surface, using `gob_offset`. -/
def swizzle_deswizzle_gob_moves (x0 y0 z0 width height bytes_per_pixel gob_address : Nat) :
    List (Nat × Nat) :=
  (List.range GOB_HEIGHT_IN_BYTES).flatMap fun y =>
    (List.range GOB_WIDTH_IN_BYTES).filterMap fun x =>
      if y0 + y < height ∧ x0 + x < width * bytes_per_pixel then
        some (z0 * width * height * bytes_per_pixel +
                (y0 + y) * (width * bytes_per_pixel) + x0 + x,
              gob_address + gob_offset x y)
      else
        none

/-- The fast-path test of `swizzle_inner` in `src/src/swizzle.rs`:
`x0 + GOB_WIDTH_IN_BYTES < width * bytes_per_pixel && y0 + GOB_HEIGHT_IN_BYTES < height`. -/
def usesFastPath (width bytes_per_pixel height x0 y0 : Nat) : Prop :=
  x0 + GOB_WIDTH_IN_BYTES < width * bytes_per_pixel ∧ y0 + GOB_HEIGHT_IN_BYTES < height

instance (width bytes_per_pixel height x0 y0 : Nat) :
    Decidable (usesFastPath width bytes_per_pixel height x0 y0) :=
  inferInstanceAs (Decidable (_ ∧ _))

/-- Byte moves performed by `swizzle_inner` from `src/src/swizzle.rs`, as
(linear index, swizzled index) pairs.  The const-generic `DESWIZZLE` flag in
Rust only swaps the two sides of the innermost assignments (compare
`deswizzle_complete_gob` with `swizzle_complete_gob`), so a single move list
describes both directions. -/
def swizzle_inner_moves (width height depth : Nat) (block_height : BlockHeight)
    (blockDepth bytes_per_pixel : Nat) : List (Nat × Nat) :=
  let blockHeight := block_height.toNat
  let widthInGobs := width_in_gobs width bytes_per_pixel
  let sliceSize := slice_size blockHeight blockDepth widthInGobs height
  let block_width := 1
  let block_size_in_bytes := GOB_SIZE_IN_BYTES * block_width * blockHeight * blockDepth
  let block_height_in_bytes := GOB_HEIGHT_IN_BYTES * blockHeight
  (List.range depth).flatMap fun z0 =>
    let offset_z := gob_address_z z0 blockHeight blockDepth sliceSize
    (stepBy height GOB_HEIGHT_IN_BYTES).flatMap fun y0 =>
      let offset_y := gob_address_y y0 block_height_in_bytes block_size_in_bytes widthInGobs
      (stepBy (width * bytes_per_pixel) GOB_WIDTH_IN_BYTES).flatMap fun x0 =>
        let offset_x := gob_address_x x0 block_size_in_bytes
        let gob_address := offset_z + offset_y + offset_x
        if usesFastPath width bytes_per_pixel height x0 y0 then
          let linear_offset := z0 * width * height * bytes_per_pixel +
            y0 * (width * bytes_per_pixel) + x0
          deswizzle_complete_gob_moves linear_offset gob_address (width * bytes_per_pixel)
        else
          swizzle_deswizzle_gob_moves x0 y0 z0 width height bytes_per_pixel gob_address

/-- Embedding of `swizzle_inner::<DESWIZZLE>` from `src/src/swizzle.rs`.
Deswizzling writes linear positions from swizzled ones; swizzling is the
same moves with the two sides swapped. -/
def swizzle_inner (deswizzle : Bool) (width height depth : Nat)
    (source destination : List UInt8) (block_height : BlockHeight)
    (blockDepth bytes_per_pixel : Nat) : List UInt8 :=
  let moves := swizzle_inner_moves width height depth block_height blockDepth bytes_per_pixel
  if deswizzle then
    applyMoves source moves destination
  else
    applyMoves source (moves.map Prod.swap) destination

/-- Embedding of `swizzle_block_linear` from `src/src/swizzle.rs`. -/
def swizzle_block_linear (width height depth : Nat) (source : List UInt8)
    (block_height : BlockHeight) (bytes_per_pixel : Nat) :
    Except SwizzleError (List UInt8) :=
  let destination :=
    List.replicate (swizzled_mip_size width height depth block_height bytes_per_pixel) (0 : UInt8)
  let expected_size := deswizzled_mip_size width height depth bytes_per_pixel
  if source.length < expected_size then
    .error (.NotEnoughData expected_size source.length)
  else
    let blockDepth := block_depth depth
    .ok (swizzle_inner false width height depth source destination block_height blockDepth
      bytes_per_pixel)

/-- Embedding of `deswizzle_block_linear` from `src/src/swizzle.rs`. -/
def deswizzle_block_linear (width height depth : Nat) (source : List UInt8)
    (block_height : BlockHeight) (bytes_per_pixel : Nat) :
    Except SwizzleError (List UInt8) :=
  let destination :=
    List.replicate (deswizzled_mip_size width height depth bytes_per_pixel) (0 : UInt8)
  let expected_size := swizzled_mip_size width height depth block_height bytes_per_pixel
  if source.length < expected_size then
    .error (.NotEnoughData expected_size source.length)
  else
    let blockDepth := block_depth depth
    .ok (swizzle_inner true width height depth source destination block_height blockDepth
      bytes_per_pixel)

/-- Embedding of the `BlockDim` struct from `src/src/surface.rs`.  The Rust
fields are `NonZeroU32`; positivity is carried as hypotheses where needed. -/
structure BlockDim where
  width : Nat
  height : Nat
  depth : Nat
  deriving DecidableEq, Repr

/-- Embedding of `BlockDim::uncompressed` from `src/src/surface.rs`. -/
def BlockDim.uncompressed : BlockDim := ⟨1, 1, 1⟩

/-- Embedding of `BlockDim::block_4x4` from `src/src/surface.rs`. -/
def BlockDim.block_4x4 : BlockDim := ⟨4, 4, 1⟩

/-- The first halving loop of `align_layer_size` in `src/src/arrays.rs`:
`while height <= (gob_height / 2) * 8 && gob_height > 1 { gob_height /= 2 }`. -/
def alignGobHeightLoop (height gob_height : Nat) : Nat :=
  halveWhile (fun gh => decide (height ≤ gh / 2 * 8 ∧ gh > 1)) gob_height

/-- The second halving loop of `align_layer_size` in `src/src/arrays.rs`:
`while depth <= gob_depth / 2 && gob_depth > 1 { gob_depth /= 2 }`. -/
def alignGobDepthLoop (depth gob_depth : Nat) : Nat :=
  halveWhile (fun gd => decide (depth ≤ gd / 2 ∧ gd > 1)) gob_depth

/-- Embedding of `align_layer_size` from `src/src/arrays.rs` with
`gob_blocks_in_tile_x = 1` (the only branch the shipping core takes). -/
def align_layer_size (layer_size : Nat) (height depth : Nat)
    (block_height_mip0 : BlockHeight) (depth_in_gobs : Nat) : Nat :=
  let gob_height := alignGobHeightLoop height block_height_mip0.toNat
  let gob_depth := alignGobDepthLoop depth depth_in_gobs
  let block_of_gobs_size := gob_height * gob_depth * GOB_SIZE_IN_BYTES
  let size_in_block_of_gobs := layer_size / block_of_gobs_size
  if layer_size ≠ size_in_block_of_gobs * block_of_gobs_size then
    (size_in_block_of_gobs + 1) * block_of_gobs_size
  else
    layer_size

/-- Rust `u32::checked_mul`, on the numeric values. -/
def u32_checked_mul (a b : Nat) : Option Nat :=
  if a * b < 2 ^ 32 then some (a * b) else none

/-- Rust `u32::checked_add`, on the numeric values. -/
def u32_checked_add (a b : Nat) : Option Nat :=
  if a + b < 2 ^ 32 then some (a + b) else none

/-- Embedding of `validate_surface` from `src/src/surface.rs`. -/
def validate_surface (width height depth bytes_per_pixel mipmap_count : Nat) :
    Except SwizzleError Unit :=
  if ((u32_checked_mul width height).bind fun u =>
        (u32_checked_mul u depth).bind fun v =>
          u32_checked_mul v bytes_per_pixel).isNone ∨
      (u32_checked_mul width bytes_per_pixel).isNone ∨
      (u32_checked_add depth (depth / 2)).isNone ∨
      mipmap_count > 32 then
    .error (.InvalidSurface width height depth bytes_per_pixel mipmap_count)
  else
    .ok ()

/-- The mip-0 block height selected by `swizzle_surface_inner` and
`swizzled_surface_size` in `src/src/surface.rs`: the caller's value (or the
inferred one) for `depth == 1`, and `BlockHeight::One` otherwise.  Both Rust
functions contain this expression verbatim. -/
def selectBlockHeightMip0 (depth : Nat) (blockHeightMip0 : Option BlockHeight)
    (height block_dim_height : Nat) : BlockHeight :=
  if depth = 1 then
    blockHeightMip0.getD (block_height_mip0 (div_round_up height block_dim_height))
  else
    .One

/-- Embedding of `swizzled_surface_size` from `src/src/surface.rs`. -/
def swizzled_surface_size (width height depth : Nat) (block_dim : BlockDim)
    (blockHeightMip0 : Option BlockHeight) (bytes_per_pixel mipmap_count layer_count : Nat) :
    Nat :=
  let block_width := block_dim.width
  let block_height := block_dim.height
  let blockDepth := block_dim.depth
  let bh0 := selectBlockHeightMip0 depth blockHeightMip0 height block_height
  let mip_size := (List.range mipmap_count).foldl
    (fun acc mip =>
      let mip_width := max (div_round_up (width >>> mip) block_width) 1
      let mip_height := max (div_round_up (height >>> mip) block_height) 1
      let mip_depth := max (div_round_up (depth >>> mip) blockDepth) 1
      let mipBlockHeight := mip_block_height mip_height bh0
      acc + swizzled_mip_size mip_width mip_height mip_depth mipBlockHeight bytes_per_pixel)
    0
  if layer_count > 1 then
    align_layer_size mip_size height depth bh0 1 * layer_count
  else
    mip_size

/-- Embedding of `deswizzled_surface_size` from `src/src/surface.rs`. -/
def deswizzled_surface_size (width height depth : Nat) (block_dim : BlockDim)
    (bytes_per_pixel mipmap_count layer_count : Nat) : Nat :=
  let block_width := block_dim.width
  let block_height := block_dim.height
  let blockDepth := block_dim.depth
  let layer_size := (List.range mipmap_count).foldl
    (fun acc mip =>
      let mip_width := max (div_round_up (width >>> mip) block_width) 1
      let mip_height := max (div_round_up (height >>> mip) block_height) 1
      let mip_depth := max (div_round_up (depth >>> mip) blockDepth) 1
      acc + deswizzled_mip_size mip_width mip_height mip_depth bytes_per_pixel)
    0
  layer_size * layer_count

/-- Embedding of `surface_destination::<DESWIZZLE>` from `src/src/surface.rs`. -/
def surface_destination (deswizzle : Bool) (width height depth : Nat) (block_dim : BlockDim)
    (blockHeightMip0 : Option BlockHeight) (bytes_per_pixel mipmap_count layer_count : Nat)
    (source : List UInt8) : Except SwizzleError (List UInt8) :=
  let swizzled_size := swizzled_surface_size width height depth block_dim blockHeightMip0
    bytes_per_pixel mipmap_count layer_count
  let deswizzled_size := deswizzled_surface_size width height depth block_dim
    bytes_per_pixel mipmap_count layer_count
  let sizes := if deswizzle then (deswizzled_size, swizzled_size)
    else (swizzled_size, deswizzled_size)
  if source.length < sizes.2 then
    .error (.NotEnoughData sizes.2 source.length)
  else
    .ok (List.replicate sizes.1 0)

/-- Embedding of `swizzle_mipmap::<DESWIZZLE>` from `src/src/surface.rs`.
The Rust `&mut` offsets become explicit state `(src_offset, dst_offset, dst)`. -/
def swizzle_mipmap (deswizzle : Bool) (width height depth : Nat)
    (block_height : BlockHeight) (blockDepth bytes_per_pixel : Nat)
    (source : List UInt8) (st : Nat × Nat × List UInt8) :
    Except SwizzleError (Nat × Nat × List UInt8) :=
  let src_offset := st.1
  let dst_offset := st.2.1
  let dst := st.2.2
  let swizzled_size := swizzled_mip_size width height depth block_height bytes_per_pixel
  let deswizzled_size := deswizzled_mip_size width height depth bytes_per_pixel
  if deswizzle ∧ source.length < src_offset + swizzled_size then
    .error (.NotEnoughData swizzled_size source.length)
  else if ¬deswizzle ∧ source.length < src_offset + deswizzled_size then
    .error (.NotEnoughData deswizzled_size source.length)
  else
    let moves := swizzle_inner_moves width height depth block_height blockDepth bytes_per_pixel
    let shifted := moves.map fun m => (dst_offset + m.1, src_offset + m.2)
    let dst := if deswizzle then
        applyMoves source shifted dst
      else
        applyMoves source (shifted.map Prod.swap) dst
    if deswizzle then
      .ok (src_offset + swizzled_size, dst_offset + deswizzled_size, dst)
    else
      .ok (src_offset + deswizzled_size, dst_offset + swizzled_size, dst)

/-- The body of the inner mip loop of `swizzle_surface_inner` in
`src/src/surface.rs` (one iteration for mip index `mip`). -/
def surfaceMipStep (deswizzle : Bool) (width height depth : Nat) (block_dim : BlockDim)
    (bh0 : BlockHeight) (bytes_per_pixel : Nat) (source : List UInt8)
    (st : Nat × Nat × List UInt8) (mip : Nat) : Except SwizzleError (Nat × Nat × List UInt8) :=
  let mip_width := max (div_round_up (width >>> mip) block_dim.width) 1
  let mip_height := max (div_round_up (height >>> mip) block_dim.height) 1
  let mip_depth := max (div_round_up (depth >>> mip) block_dim.depth) 1
  let mipBlockHeight := mip_block_height mip_height bh0
  let mipBlockDepth := mip_block_depth mip_depth (block_depth depth)
  swizzle_mipmap deswizzle mip_width mip_height mip_depth mipBlockHeight mipBlockDepth
    bytes_per_pixel source st

/-- The body of the outer layer loop of `swizzle_surface_inner` in
`src/src/surface.rs`: all mips of one layer, then the inter-layer alignment. -/
def surfaceLayerStep (deswizzle : Bool) (width height depth : Nat) (block_dim : BlockDim)
    (bh0 : BlockHeight) (bytes_per_pixel mipmap_count layer_count : Nat) (source : List UInt8)
    (st : Nat × Nat × List UInt8) (_layer : Nat) :
    Except SwizzleError (Nat × Nat × List UInt8) := do
  let st ← (List.range mipmap_count).foldlM
    (surfaceMipStep deswizzle width height depth block_dim bh0 bytes_per_pixel source) st
  if layer_count > 1 then
    if deswizzle then
      pure (align_layer_size st.1 height depth bh0 1, st.2.1, st.2.2)
    else
      pure (st.1, align_layer_size st.2.1 height depth bh0 1, st.2.2)
  else
    pure st

/-- Embedding of `swizzle_surface_inner::<DESWIZZLE>` from `src/src/surface.rs`,
returning the filled result buffer.  The Rust nested `for` loops over layers
and mips become `foldlM` over `surfaceLayerStep` and `surfaceMipStep`. -/
def swizzle_surface_inner (deswizzle : Bool) (width height depth : Nat)
    (source result : List UInt8) (block_dim : BlockDim)
    (blockHeightMip0 : Option BlockHeight) (bytes_per_pixel mipmap_count layer_count : Nat) :
    Except SwizzleError (List UInt8) :=
  let bh0 := selectBlockHeightMip0 depth blockHeightMip0 height block_dim.height
  let final := (List.range layer_count).foldlM
    (surfaceLayerStep deswizzle width height depth block_dim bh0 bytes_per_pixel mipmap_count
      layer_count source)
    ((0, 0, result) : Nat × Nat × List UInt8)
  final.map fun st => st.2.2

/-- Embedding of `swizzle_surface` from `src/src/surface.rs`. -/
def swizzle_surface (width height depth : Nat) (source : List UInt8) (block_dim : BlockDim)
    (blockHeightMip0 : Option BlockHeight) (bytes_per_pixel mipmap_count layer_count : Nat) :
    Except SwizzleError (List UInt8) :=
  if width = 0 ∨ height = 0 ∨ depth = 0 ∨ bytes_per_pixel = 0 ∨ mipmap_count = 0 ∨
      layer_count = 0 then
    .ok []
  else do
    let _ ← validate_surface width height depth bytes_per_pixel mipmap_count
    let result ← surface_destination false width height depth block_dim blockHeightMip0
      bytes_per_pixel mipmap_count layer_count source
    swizzle_surface_inner false width height depth source result block_dim blockHeightMip0
      bytes_per_pixel mipmap_count layer_count

/-- Embedding of `deswizzle_surface` from `src/src/surface.rs`. -/
def deswizzle_surface (width height depth : Nat) (source : List UInt8) (block_dim : BlockDim)
    (blockHeightMip0 : Option BlockHeight) (bytes_per_pixel mipmap_count layer_count : Nat) :
    Except SwizzleError (List UInt8) :=
  if width = 0 ∨ height = 0 ∨ depth = 0 ∨ bytes_per_pixel = 0 ∨ mipmap_count = 0 ∨
      layer_count = 0 then
    .ok []
  else do
    let _ ← validate_surface width height depth bytes_per_pixel mipmap_count
    let result ← surface_destination true width height depth block_dim blockHeightMip0
      bytes_per_pixel mipmap_count layer_count source
    swizzle_surface_inner true width height depth source result block_dim blockHeightMip0
      bytes_per_pixel mipmap_count layer_count

/-!
Specification-level abbreviations used to characterize the transform.  For a
2D surface (`depth = 1`, `z = 0`) the byte at byte-column `xb` and row `Y`
sits at `linearIdx` in the row-major buffer and at `swizzledIdx` in the
block-linear buffer (the sum `gob_address_z + gob_address_y + gob_address_x +
gob_offset` computed by `swizzle_inner`, rewritten in terms of `xb` and `Y`).
-/

/-- Row-major index of the byte at byte-column `xb`, row `Y` (depth 1). -/
def linearIdx (width bytes_per_pixel xb Y : Nat) : Nat :=
  Y * (width * bytes_per_pixel) + xb

/-- Block-linear index of the byte at byte-column `xb`, row `Y` (depth 1),
for integer block height `bh`. -/
def swizzledIdx (width bytes_per_pixel bh xb Y : Nat) : Nat :=
  Y / 8 / bh * (512 * bh * width_in_gobs width bytes_per_pixel) +
    Y / 8 % bh * 512 + xb / 64 * (512 * bh) + gob_offset (xb % 64) (Y % 8)

/-- Inverse of `gob_offset` in its first argument. -/
def gobOffsetInvX (o : Nat) : Nat := o / 256 * 32 + o / 32 % 2 * 16 + o % 16

/-- Inverse of `gob_offset` in its second argument. -/
def gobOffsetInvY (o : Nat) : Nat := o / 64 % 4 * 2 + o / 16 % 2

/-- The in-GOB byte coordinates `(x, y)` in the order the fast path
(`deswizzle_complete_gob` / `swizzle_complete_gob`) visits them. -/
def fastGobEnum : List (Nat × Nat) :=
  (List.range 8).flatMap fun y =>
    (((List.range 16).map fun j => 48 + j) ++ ((List.range 16).map fun j => 32 + j) ++
      ((List.range 16).map fun j => 16 + j) ++ (List.range 16)).map fun x => (x, y)

/-- The in-GOB byte coordinates `(x, y)` in row-major order, as the slow path
(`swizzle_deswizzle_gob`) visits them on a complete GOB. -/
def rowMajorGobEnum : List (Nat × Nat) :=
  (List.range 8).flatMap fun y => (List.range 64).map fun x => (x, y)

/-- A 512-byte swizzled buffer for the 1×1 surface used as a round-trip
counterexample: its single addressed byte is 0 but a padding byte is 1. -/
def c1PaddingInput : List UInt8 := 0 :: 1 :: List.replicate 510 0

/-! ### Facts about `gob_offset` -/

theorem gob_offset_lt : ∀ x < 64, ∀ y < 8, gob_offset x y < 512 := by decide

theorem gobOffsetInv_gob_offset :
    ∀ x < 64, ∀ y < 8,
      gobOffsetInvX (gob_offset x y) = x ∧ gobOffsetInvY (gob_offset x y) = y := by decide

theorem gob_offset_gobOffsetInv :
    ∀ o < 512, gobOffsetInvX o < 64 ∧ gobOffsetInvY o < 8 ∧
      gob_offset (gobOffsetInvX o) (gobOffsetInvY o) = o := by decide

theorem gob_offset_injOn {x y x' y' : Nat} (hx : x < 64) (hy : y < 8) (hx' : x' < 64)
    (hy' : y' < 8) (h : gob_offset x y = gob_offset x' y') : x = x' ∧ y = y' := by
  have h1 := gobOffsetInv_gob_offset x hx y hy
  have h2 := gobOffsetInv_gob_offset x' hx' y' hy'
  rw [h] at h1
  exact ⟨h1.1.symm.trans h2.1, h1.2.symm.trans h2.2⟩

/-! ### Behaviour of `applyMoves` -/

theorem applyMoves_nil (source : List UInt8) (destination : List UInt8) :
    applyMoves source [] destination = destination := rfl

theorem applyMoves_cons (source : List UInt8) (m : Nat × Nat) (ms : List (Nat × Nat))
    (destination : List UInt8) :
    applyMoves source (m :: ms) destination =
      applyMoves source ms (destination.set m.1 (source.getD m.2 0)) := rfl

theorem applyMoves_length (source : List UInt8) (moves : List (Nat × Nat))
    (destination : List UInt8) :
    (applyMoves source moves destination).length = destination.length := by
  induction moves generalizing destination with
  | nil => rfl
  | cons m ms ih =>
    rw [applyMoves_cons, ih, List.length_set]

theorem getD_set_self {l : List UInt8} {i : Nat} {v : UInt8} (h : i < l.length) :
    (l.set i v).getD i 0 = v := by
  simp [List.getD, List.getElem?_set, h]

theorem getD_set_ne {l : List UInt8} {i j : Nat} {v : UInt8} (h : i ≠ j) :
    (l.set i v).getD j 0 = l.getD j 0 := by
  simp [List.getD, List.getElem?_set, h]

theorem applyMoves_getD_no_key (source : List UInt8) (moves : List (Nat × Nat))
    (destination : List UInt8) (j : Nat) (h : ∀ m ∈ moves, m.1 ≠ j) :
    (applyMoves source moves destination).getD j 0 = destination.getD j 0 := by
  induction moves generalizing destination with
  | nil => rfl
  | cons m ms ih =>
    rw [applyMoves_cons, ih _ fun m' hm' => h m' (List.mem_cons_of_mem _ hm'),
      getD_set_ne (h m (List.mem_cons_self _ _))]

theorem applyMoves_getD_unique (source : List UInt8) (moves : List (Nat × Nat))
    (destination : List UInt8) (j s : Nat) (hmem : (j, s) ∈ moves)
    (huniq : ∀ m ∈ moves, m.1 = j → m = (j, s)) (hj : j < destination.length) :
    (applyMoves source moves destination).getD j 0 = source.getD s 0 := by
  induction moves generalizing destination with
  | nil => exact absurd hmem (List.not_mem_nil _)
  | cons m ms ih =>
    rw [applyMoves_cons]
    by_cases hms : (j, s) ∈ ms
    · exact ih _ hms (fun m' hm' => huniq m' (List.mem_cons_of_mem _ hm'))
        (by rwa [List.length_set])
    · have hm : m = (j, s) := by
        rcases List.mem_cons.mp hmem with h | h
        · exact h.symm
        · exact absurd h hms
      have hnokey : ∀ m' ∈ ms, m'.1 ≠ j := by
        intro m' hm' hkey
        exact hms (huniq m' (List.mem_cons_of_mem _ hm') hkey ▸ hm')
      rw [applyMoves_getD_no_key _ _ _ _ hnokey, hm, getD_set_self hj]

/-! ### Facts about `BlockHeight` and the halving loops -/

theorem BlockHeight.toNat_pos (b : BlockHeight) : 0 < b.toNat := by
  cases b <;> decide

theorem BlockHeight.toNat_mem (b : BlockHeight) :
    b.toNat = 1 ∨ b.toNat = 2 ∨ b.toNat = 4 ∨ b.toNat = 8 ∨ b.toNat = 16 ∨ b.toNat = 32 := by
  cases b <;> simp [BlockHeight.toNat]

theorem BlockHeight.new_of_mem {v : Nat}
    (h : v = 1 ∨ v = 2 ∨ v = 4 ∨ v = 8 ∨ v = 16 ∨ v = 32) :
    ∃ b : BlockHeight, BlockHeight.new v = some b ∧ b.toNat = v := by
  rcases h with h | h | h | h | h | h <;> subst h <;> exact ⟨_, rfl, rfl⟩

theorem halveWhileAux_congr (cond : Nat → Bool) (hcond : ∀ v, cond v = true → 1 < v) :
    ∀ v fuel1 fuel2, v ≤ fuel1 → v ≤ fuel2 →
      halveWhileAux cond fuel1 v = halveWhileAux cond fuel2 v := by
  intro v
  induction v using Nat.strong_induction_on with
  | _ v ih =>
    intro fuel1 fuel2 h1 h2
    have hzero : cond 0 = false := by
      cases hc : cond 0 with
      | false => rfl
      | true => exact absurd (hcond 0 hc) (by omega)
    match fuel1, fuel2 with
    | 0, 0 => rfl
    | 0, f2 + 1 =>
      have hv : v = 0 := Nat.le_zero.mp h1
      subst hv
      simp [halveWhileAux, hzero]
    | f1 + 1, 0 =>
      have hv : v = 0 := Nat.le_zero.mp h2
      subst hv
      simp [halveWhileAux, hzero]
    | f1 + 1, f2 + 1 =>
      simp only [halveWhileAux]
      by_cases hc : cond v = true
      · rw [if_pos hc, if_pos hc]
        have hv := hcond v hc
        exact ih (v / 2) (by omega) f1 f2 (by omega) (by omega)
      · rw [if_neg hc, if_neg hc]

theorem halveWhile_eq (cond : Nat → Bool) (hcond : ∀ v, cond v = true → 1 < v) (v : Nat) :
    halveWhile cond v = if cond v then halveWhile cond (v / 2) else v := by
  unfold halveWhile
  match v with
  | 0 =>
    have hzero : cond 0 = false := by
      cases hc : cond 0 with
      | false => rfl
      | true => exact absurd (hcond 0 hc) (by omega)
    simp [halveWhileAux, hzero]
  | n + 1 =>
    simp only [halveWhileAux]
    by_cases hc : cond (n + 1) = true
    · rw [if_pos hc, if_pos hc]
      exact halveWhileAux_congr cond hcond ((n + 1) / 2) n ((n + 1) / 2)
        (by have := hcond _ hc; omega) (le_refl _)
    · rw [if_neg hc, if_neg hc]

theorem halveWhile_le (cond : Nat → Bool) (hcond : ∀ v, cond v = true → 1 < v) (v : Nat) :
    halveWhile cond v ≤ v := by
  induction v using Nat.strong_induction_on with
  | _ v ih =>
    rw [halveWhile_eq cond hcond]
    split
    · rename_i hc
      exact le_trans (ih (v / 2) (by have := hcond v hc; omega)) (Nat.div_le_self _ _)
    · exact le_refl _

theorem halveWhile_closed (cond : Nat → Bool) (hcond : ∀ v, cond v = true → 1 < v)
    (S : Nat → Prop) (hS : ∀ v, S v → cond v = true → S (v / 2)) :
    ∀ v, S v → S (halveWhile cond v) := by
  intro v
  induction v using Nat.strong_induction_on with
  | _ v ih =>
    intro hv
    rw [halveWhile_eq cond hcond]
    split
    · rename_i hc
      exact ih (v / 2) (by have := hcond v hc; omega) (hS v hv hc)
    · exact hv

theorem mipBlockHeightCond_pos (m : Nat) :
    ∀ v, (fun bh => decide (m ≤ bh / 2 * 8 ∧ bh > 1)) v = true → 1 < v := by
  intro v hv
  exact (of_decide_eq_true hv).2

theorem mipBlockHeightLoop_le (m v : Nat) : mipBlockHeightLoop m v ≤ v :=
  halveWhile_le _ (mipBlockHeightCond_pos m) v

theorem mipBlockHeightLoop_mem (m : Nat) :
    ∀ v, (v = 1 ∨ v = 2 ∨ v = 4 ∨ v = 8 ∨ v = 16 ∨ v = 32) →
      (mipBlockHeightLoop m v = 1 ∨ mipBlockHeightLoop m v = 2 ∨ mipBlockHeightLoop m v = 4 ∨
        mipBlockHeightLoop m v = 8 ∨ mipBlockHeightLoop m v = 16 ∨
        mipBlockHeightLoop m v = 32) := by
  intro v hv
  refine halveWhile_closed _ (mipBlockHeightCond_pos m)
    (fun u => u = 1 ∨ u = 2 ∨ u = 4 ∨ u = 8 ∨ u = 16 ∨ u = 32) ?_ v hv
  intro w hw hc
  have h2 := (of_decide_eq_true hc).2
  rcases hw with h' | h' | h' | h' | h' | h' <;> subst h' <;> simp_all

/-! ### Size monotonicity helpers -/

theorem le_div_round_up_mul (x d : Nat) (hd : 0 < d) : x ≤ div_round_up x d * d := by
  unfold div_round_up
  have h1 := Nat.div_add_mod (x + d - 1) d
  have h2 : (x + d - 1) % d < d := Nat.mod_lt _ hd
  rw [Nat.mul_comm]
  omega

theorem block_depth_pos (depth : Nat) : 0 < block_depth depth := by
  simp only [block_depth]
  split_ifs <;> omega

theorem deswizzled_mip_size_le_swizzled_mip_size (width height depth : Nat)
    (block_height : BlockHeight) (bytes_per_pixel : Nat) :
    deswizzled_mip_size width height depth bytes_per_pixel ≤
      swizzled_mip_size width height depth block_height bytes_per_pixel := by
  unfold deswizzled_mip_size swizzled_mip_size width_in_gobs height_in_blocks round_up
    GOB_WIDTH_IN_BYTES GOB_HEIGHT_IN_BYTES GOB_SIZE_IN_BYTES
  have hbh := block_height.toNat_pos
  have h1 : width * bytes_per_pixel ≤ div_round_up (width * bytes_per_pixel) 64 * 64 :=
    le_div_round_up_mul _ _ (by omega)
  have h2 : height ≤ div_round_up height (block_height.toNat * 8) * (block_height.toNat * 8) :=
    le_div_round_up_mul _ _ (by positivity)
  have h3 : depth ≤ (depth + block_depth depth - 1) / block_depth depth * block_depth depth := by
    have := le_div_round_up_mul depth (block_depth depth) (block_depth_pos depth)
    simpa [div_round_up] using this
  calc width * height * depth * bytes_per_pixel
      = (width * bytes_per_pixel) * height * depth := by ring
    _ ≤ (div_round_up (width * bytes_per_pixel) 64 * 64) *
          (div_round_up height (block_height.toNat * 8) * (block_height.toNat * 8)) *
          ((depth + block_depth depth - 1) / block_depth depth * block_depth depth) :=
        Nat.mul_le_mul (Nat.mul_le_mul h1 h2) h3
    _ = div_round_up (width * bytes_per_pixel) 64 *
          (div_round_up height (block_height.toNat * 8) * block_height.toNat) *
          ((depth + block_depth depth - 1) / block_depth depth * block_depth depth) *
          (64 * 8) := by ring

theorem foldl_add_le (l : List Nat) (f g : Nat → Nat) (a b : Nat) (hab : a ≤ b)
    (hfg : ∀ i ∈ l, f i ≤ g i) :
    l.foldl (fun acc i => acc + f i) a ≤ l.foldl (fun acc i => acc + g i) b := by
  induction l generalizing a b with
  | nil => exact hab
  | cons i l ih =>
    exact ih _ _ (Nat.add_le_add hab (hfg i (List.mem_cons_self _ _)))
      fun i' hi' => hfg i' (List.mem_cons_of_mem _ hi')

/-- C5: `swizzled_mip_size ≥ deswizzled_mip_size` for all parameters, and
`swizzled_surface_size ≥ deswizzled_surface_size` whenever `layer_count = 1`. -/
theorem c5_size_monotonicity :
    (∀ (width height depth bytes_per_pixel : Nat) (block_height : BlockHeight),
      deswizzled_mip_size width height depth bytes_per_pixel ≤
        swizzled_mip_size width height depth block_height bytes_per_pixel) ∧
    (∀ (width height depth : Nat) (block_dim : BlockDim) (blockHeightMip0 : Option BlockHeight)
      (bytes_per_pixel mipmap_count : Nat),
      deswizzled_surface_size width height depth block_dim bytes_per_pixel mipmap_count 1 ≤
        swizzled_surface_size width height depth block_dim blockHeightMip0 bytes_per_pixel
          mipmap_count 1) := by
  refine ⟨fun w h d bpp bh => deswizzled_mip_size_le_swizzled_mip_size w h d bh bpp, ?_⟩
  intro width height depth block_dim blockHeightMip0 bytes_per_pixel mipmap_count
  unfold deswizzled_surface_size swizzled_surface_size
  simp only [gt_iff_lt, Nat.lt_irrefl, if_false, Nat.mul_one]
  exact foldl_add_le _ _ _ 0 0 (Nat.le_refl 0) fun i _ =>
    deswizzled_mip_size_le_swizzled_mip_size _ _ _ _ _

/-- C10: for `x < 64` and `y < 8`, `gob_offset x y` is below 512, the map is
injective on that domain, and every offset below 512 is attained, so it is a
bijection between the 64×8 byte positions of a GOB and the 512 byte offsets
of its swizzled form. -/
theorem c10_gob_offset_bijection :
    (∀ x < 64, ∀ y < 8, gob_offset x y < 512) ∧
    (∀ x < 64, ∀ y < 8, ∀ x' < 64, ∀ y' < 8,
      gob_offset x y = gob_offset x' y' → x = x' ∧ y = y') ∧
    (∀ o < 512, ∃ x < 64, ∃ y < 8, gob_offset x y = o) := by
  refine ⟨gob_offset_lt, ?_, ?_⟩
  · intro x hx y hy x' hx' y' hy' h
    exact gob_offset_injOn hx hy hx' hy' h
  · intro o ho
    obtain ⟨h1, h2, h3⟩ := gob_offset_gobOffsetInv o ho
    exact ⟨gobOffsetInvX o, h1, gobOffsetInvY o, h2, h3⟩

theorem c10_witness :
    gob_offset 63 7 < 512 ∧ (∃ x < 64, ∃ y < 8, gob_offset x y = 300) :=
  ⟨c10_gob_offset_bijection.1 63 (by decide) 7 (by decide),
    c10_gob_offset_bijection.2.2 300 (by decide)⟩

/-- C8: `mip_block_height` always terminates in a value of the `BlockHeight`
set (so the Rust `BlockHeight::new(...).unwrap()` never panics), and the
result never exceeds `block_height_mip0`. -/
theorem c8_mip_block_height_safe :
    ∀ (mip_height : Nat) (block_height_mip0 : BlockHeight),
      BlockHeight.new (mipBlockHeightLoop mip_height block_height_mip0.toNat) =
          some (mip_block_height mip_height block_height_mip0) ∧
        (mip_block_height mip_height block_height_mip0).toNat ≤ block_height_mip0.toNat := by
  intro m bh0
  obtain ⟨b, hb, hbv⟩ :=
    BlockHeight.new_of_mem (mipBlockHeightLoop_mem m bh0.toNat bh0.toNat_mem)
  have h1 : mip_block_height m bh0 = b := by rw [mip_block_height, hb]; rfl
  refine ⟨by rw [hb, h1], ?_⟩
  rw [h1, hbv]
  exact mipBlockHeightLoop_le m bh0.toNat

/-- C4: if any of the six counts is zero, both surface functions return an
empty buffer, for any source and before any validation (the hypotheses place
no constraint at all on the other arguments). -/
theorem c4_zero_counts (width height depth : Nat) (source : List UInt8)
    (block_dim : BlockDim) (blockHeightMip0 : Option BlockHeight)
    (bytes_per_pixel mipmap_count layer_count : Nat)
    (h : width = 0 ∨ height = 0 ∨ depth = 0 ∨ bytes_per_pixel = 0 ∨ mipmap_count = 0 ∨
      layer_count = 0) :
    swizzle_surface width height depth source block_dim blockHeightMip0 bytes_per_pixel
        mipmap_count layer_count = .ok [] ∧
      deswizzle_surface width height depth source block_dim blockHeightMip0 bytes_per_pixel
        mipmap_count layer_count = .ok [] := by
  constructor
  · rw [swizzle_surface, if_pos h]
  · rw [deswizzle_surface, if_pos h]

theorem c4_witness :
    swizzle_surface 0 4294967295 4294967295 [1, 2, 3] BlockDim.uncompressed none 4 33 1 =
        .ok [] ∧
      deswizzle_surface 0 4294967295 4294967295 [1, 2, 3] BlockDim.uncompressed none 4 33 1 =
        .ok [] :=
  c4_zero_counts 0 4294967295 4294967295 [1, 2, 3] BlockDim.uncompressed none 4 33 1
    (Or.inl rfl)

/-! ### Validation and error plumbing for the surface functions -/

theorem validate_surface_eq (width height depth bytes_per_pixel mipmap_count : Nat)
    (hd : 0 < depth) (hbpp : 0 < bytes_per_pixel) :
    validate_surface width height depth bytes_per_pixel mipmap_count =
      if 2 ^ 32 ≤ width * height * depth * bytes_per_pixel ∨
          2 ^ 32 ≤ width * bytes_per_pixel ∨ 2 ^ 32 ≤ depth + depth / 2 ∨
          32 < mipmap_count then
        .error (.InvalidSurface width height depth bytes_per_pixel mipmap_count)
      else
        .ok () := by
  unfold validate_surface u32_checked_mul u32_checked_add
  have hchain :
      ((if width * height < 2 ^ 32 then some (width * height) else none).bind fun u =>
          (if u * depth < 2 ^ 32 then some (u * depth) else none).bind fun v =>
            if v * bytes_per_pixel < 2 ^ 32 then some (v * bytes_per_pixel)
            else none).isNone = true ↔
        2 ^ 32 ≤ width * height * depth * bytes_per_pixel := by
    by_cases hwh : width * height < 2 ^ 32
    · by_cases hwhd : width * height * depth < 2 ^ 32
      · simp only [hwh, if_true, Option.some_bind, hwhd]
        by_cases hall : width * height * depth * bytes_per_pixel < 2 ^ 32 <;> simp [hall]
      · simp only [hwh, if_true, Option.some_bind, hwhd, if_false, Option.none_bind,
          Option.isNone_none]
        have h1 : 2 ^ 32 ≤ width * height * depth := by omega
        exact iff_of_true trivial (le_trans h1 (Nat.le_mul_of_pos_right _ hbpp))
    · simp only [hwh, if_false, Option.none_bind, Option.isNone_none]
      have h1 : 2 ^ 32 ≤ width * height := by omega
      have h2 : width * height ≤ width * height * depth * bytes_per_pixel :=
        le_trans (Nat.le_mul_of_pos_right _ hd) (Nat.le_mul_of_pos_right _ hbpp)
      exact iff_of_true trivial (le_trans h1 h2)
    
  have hx : ((if width * bytes_per_pixel < 2 ^ 32 then some (width * bytes_per_pixel)
      else none).isNone = true) ↔ 2 ^ 32 ≤ width * bytes_per_pixel := by
    by_cases hcase : width * bytes_per_pixel < 2 ^ 32 <;> simp [hcase]
  have hadd : ((if depth + depth / 2 < 2 ^ 32 then some (depth + depth / 2)
      else none).isNone = true) ↔ 2 ^ 32 ≤ depth + depth / 2 := by
    by_cases hcase : depth + depth / 2 < 2 ^ 32 <;> simp [hcase]
  rw [if_congr (iff_of_eq (congrArg _ rfl)) rfl rfl]
  exact if_congr (by rw [hchain, hx, hadd]) rfl rfl

theorem surface_destination_error_shape {dz : Bool} {width height depth : Nat}
    {block_dim : BlockDim} {blockHeightMip0 : Option BlockHeight}
    {bytes_per_pixel mipmap_count layer_count : Nat} {source : List UInt8} {e : SwizzleError}
    (h : surface_destination dz width height depth block_dim blockHeightMip0 bytes_per_pixel
      mipmap_count layer_count source = .error e) :
    ∃ a b, e = .NotEnoughData a b := by
  simp only [surface_destination] at h
  split at h <;> split at h <;>
    first
    | (injection h with h'; exact ⟨_, _, h'.symm⟩)
    | cases h

theorem swizzle_mipmap_error_shape {dz : Bool} {width height depth : Nat}
    {block_height : BlockHeight} {blockDepth bytes_per_pixel : Nat} {source : List UInt8}
    {st : Nat × Nat × List UInt8} {e : SwizzleError}
    (h : swizzle_mipmap dz width height depth block_height blockDepth bytes_per_pixel source
      st = .error e) :
    ∃ a b, e = .NotEnoughData a b := by
  simp only [swizzle_mipmap] at h
  split at h
  · injection h with h'
    exact ⟨_, _, h'.symm⟩
  · split at h
    · injection h with h'
      exact ⟨_, _, h'.symm⟩
    · split at h <;> cases h

theorem foldlM_except_error_shape {σ α : Type} (f : σ → α → Except SwizzleError σ)
    (hf : ∀ s a e, f s a = .error e → ∃ x y, e = .NotEnoughData x y) :
    ∀ (l : List α) (s : σ) (e : SwizzleError),
      List.foldlM f s l = .error e → ∃ x y, e = .NotEnoughData x y := by
  intro l
  induction l with
  | nil =>
    intro s e h
    simp only [List.foldlM_nil] at h
    cases h
  | cons a l ih =>
    intro s e h
    rw [List.foldlM_cons] at h
    cases hfa : f s a with
    | error e' =>
      rw [hfa] at h
      have : Except.error e' = Except.error e := h
      injection this with h'
      exact h' ▸ hf s a e' hfa
    | ok s' =>
      rw [hfa] at h
      exact ih s' e h

theorem except_map_error {A B : Type} (f : A → B) (x : Except SwizzleError A)
    (e : SwizzleError) (h : x.map f = .error e) : x = .error e := by
  cases x with
  | error a =>
    have : a = e := by
      simp only [Except.map] at h
      injection h
    rw [this]
  | ok a => simp [Except.map] at h

theorem surfaceMipStep_error_shape {dz : Bool} {width height depth : Nat}
    {block_dim : BlockDim} {bh0 : BlockHeight} {bytes_per_pixel : Nat} {source : List UInt8}
    {st : Nat × Nat × List UInt8} {mip : Nat} {e : SwizzleError}
    (h : surfaceMipStep dz width height depth block_dim bh0 bytes_per_pixel source st mip =
      .error e) :
    ∃ a b, e = .NotEnoughData a b :=
  swizzle_mipmap_error_shape h

theorem surfaceLayerStep_error_shape {dz : Bool} {width height depth : Nat}
    {block_dim : BlockDim} {bh0 : BlockHeight}
    {bytes_per_pixel mipmap_count layer_count : Nat} {source : List UInt8}
    {st : Nat × Nat × List UInt8} {layer : Nat} {e : SwizzleError}
    (h : surfaceLayerStep dz width height depth block_dim bh0 bytes_per_pixel mipmap_count
      layer_count source st layer = .error e) :
    ∃ a b, e = .NotEnoughData a b := by
  unfold surfaceLayerStep at h
  cases hmips : (List.range mipmap_count).foldlM
      (surfaceMipStep dz width height depth block_dim bh0 bytes_per_pixel source) st with
  | error em =>
    rw [hmips] at h
    simp only [bind, Except.bind] at h
    have : em = e := by injection h
    exact this ▸ foldlM_except_error_shape _ (fun s a e' he' => surfaceMipStep_error_shape he')
      _ _ _ hmips
  | ok s' =>
    rw [hmips] at h
    simp only [bind, Except.bind, pure, Except.pure] at h
    split at h <;> first
    | (split at h <;> cases h)
    | cases h

theorem swizzle_surface_inner_error_shape {dz : Bool} {width height depth : Nat}
    {source result : List UInt8} {block_dim : BlockDim}
    {blockHeightMip0 : Option BlockHeight} {bytes_per_pixel mipmap_count layer_count : Nat}
    {e : SwizzleError}
    (h : swizzle_surface_inner dz width height depth source result block_dim blockHeightMip0
      bytes_per_pixel mipmap_count layer_count = .error e) :
    ∃ a b, e = .NotEnoughData a b := by
  unfold swizzle_surface_inner at h
  exact foldlM_except_error_shape _ (fun s a e' he' => surfaceLayerStep_error_shape he')
    _ _ _ (except_map_error _ _ _ h)

theorem surface_destination_not_enough_swizzle {width height depth : Nat}
    {block_dim : BlockDim} {blockHeightMip0 : Option BlockHeight}
    {bytes_per_pixel mipmap_count layer_count : Nat} {source : List UInt8}
    (hlen : source.length < deswizzled_surface_size width height depth block_dim
      bytes_per_pixel mipmap_count layer_count) :
    surface_destination false width height depth block_dim blockHeightMip0 bytes_per_pixel
        mipmap_count layer_count source =
      .error (.NotEnoughData (deswizzled_surface_size width height depth block_dim
        bytes_per_pixel mipmap_count layer_count) source.length) := by
  simp [surface_destination, hlen]

theorem surface_destination_not_enough_deswizzle {width height depth : Nat}
    {block_dim : BlockDim} {blockHeightMip0 : Option BlockHeight}
    {bytes_per_pixel mipmap_count layer_count : Nat} {source : List UInt8}
    (hlen : source.length < swizzled_surface_size width height depth block_dim blockHeightMip0
      bytes_per_pixel mipmap_count layer_count) :
    surface_destination true width height depth block_dim blockHeightMip0 bytes_per_pixel
        mipmap_count layer_count source =
      .error (.NotEnoughData (swizzled_surface_size width height depth block_dim
        blockHeightMip0 bytes_per_pixel mipmap_count layer_count) source.length) := by
  simp [surface_destination, hlen]

/-- C2: for a surface with all six counts nonzero that passes the overflow
validation, a source shorter than the expected size makes the surface
functions fail with `NotEnoughData` carrying exactly the expected size and the
actual source length; the comparison lives in `surface_destination`, which
returns the error instead of producing the output buffer. -/
theorem c2_not_enough_data (width height depth : Nat) (source : List UInt8)
    (block_dim : BlockDim) (blockHeightMip0 : Option BlockHeight)
    (bytes_per_pixel mipmap_count layer_count : Nat)
    (hw : 0 < width) (hh : 0 < height) (hd : 0 < depth) (hbpp : 0 < bytes_per_pixel)
    (hmc : 0 < mipmap_count) (hlc : 0 < layer_count)
    (hvalid : validate_surface width height depth bytes_per_pixel mipmap_count = .ok ()) :
    (source.length < deswizzled_surface_size width height depth block_dim bytes_per_pixel
        mipmap_count layer_count →
      swizzle_surface width height depth source block_dim blockHeightMip0 bytes_per_pixel
          mipmap_count layer_count =
        .error (.NotEnoughData (deswizzled_surface_size width height depth block_dim
          bytes_per_pixel mipmap_count layer_count) source.length)) ∧
    (source.length < swizzled_surface_size width height depth block_dim blockHeightMip0
        bytes_per_pixel mipmap_count layer_count →
      deswizzle_surface width height depth source block_dim blockHeightMip0 bytes_per_pixel
          mipmap_count layer_count =
        .error (.NotEnoughData (swizzled_surface_size width height depth block_dim
          blockHeightMip0 bytes_per_pixel mipmap_count layer_count) source.length)) := by
  have hnz : ¬(width = 0 ∨ height = 0 ∨ depth = 0 ∨ bytes_per_pixel = 0 ∨ mipmap_count = 0 ∨
      layer_count = 0) := by omega
  constructor
  · intro hlen
    rw [swizzle_surface, if_neg hnz]
    simp only [hvalid, surface_destination_not_enough_swizzle hlen, bind, Except.bind]
  · intro hlen
    rw [deswizzle_surface, if_neg hnz]
    simp only [hvalid, surface_destination_not_enough_deswizzle hlen, bind, Except.bind]

theorem c2_witness :
    swizzle_surface 16 16 16 [0, 0, 0, 0] BlockDim.uncompressed none 4 1 1 =
        .error (.NotEnoughData 16384 4) ∧
      deswizzle_surface 16 16 16 [0, 0, 0, 0] BlockDim.uncompressed none 4 1 1 =
        .error (.NotEnoughData 16384 4) := by
  have h := c2_not_enough_data 16 16 16 [0, 0, 0, 0] BlockDim.uncompressed none 4 1 1
    (by decide) (by decide) (by decide) (by decide) (by decide) (by decide) (by decide)
  exact ⟨(h.1 (by decide)).trans (by decide), (h.2 (by decide)).trans (by decide)⟩

/-- C3: for nonzero counts, the surface functions return `InvalidSurface`
(with exactly the call's `width, height, depth, bytes_per_pixel,
mipmap_count`) if and only if `width*height*depth*bytes_per_pixel` or
`width*bytes_per_pixel` overflows 32 bits, or `depth + depth/2` overflows, or
`mipmap_count > 32`; every other outcome is `Ok` or `NotEnoughData`.  The
embedding is a total function, so no execution path panics. -/
theorem c3_invalid_surface (width height depth : Nat) (source : List UInt8)
    (block_dim : BlockDim) (blockHeightMip0 : Option BlockHeight)
    (bytes_per_pixel mipmap_count layer_count : Nat)
    (hw : 0 < width) (hh : 0 < height) (hd : 0 < depth) (hbpp : 0 < bytes_per_pixel)
    (hmc : 0 < mipmap_count) (hlc : 0 < layer_count) :
    (swizzle_surface width height depth source block_dim blockHeightMip0 bytes_per_pixel
          mipmap_count layer_count =
        .error (.InvalidSurface width height depth bytes_per_pixel mipmap_count) ↔
      2 ^ 32 ≤ width * height * depth * bytes_per_pixel ∨
        2 ^ 32 ≤ width * bytes_per_pixel ∨ 2 ^ 32 ≤ depth + depth / 2 ∨ 32 < mipmap_count) ∧
    (deswizzle_surface width height depth source block_dim blockHeightMip0 bytes_per_pixel
          mipmap_count layer_count =
        .error (.InvalidSurface width height depth bytes_per_pixel mipmap_count) ↔
      2 ^ 32 ≤ width * height * depth * bytes_per_pixel ∨
        2 ^ 32 ≤ width * bytes_per_pixel ∨ 2 ^ 32 ≤ depth + depth / 2 ∨ 32 < mipmap_count) := by
  have hnz : ¬(width = 0 ∨ height = 0 ∨ depth = 0 ∨ bytes_per_pixel = 0 ∨ mipmap_count = 0 ∨
      layer_count = 0) := by omega
  have hval := validate_surface_eq width height depth bytes_per_pixel mipmap_count hd hbpp
  constructor
  · constructor
    · intro herr
      by_contra hcond
      rw [swizzle_surface, if_neg hnz, hval, if_neg hcond] at herr
      simp only [bind, Except.bind] at herr
      cases hdest : surface_destination false width height depth block_dim blockHeightMip0
          bytes_per_pixel mipmap_count layer_count source with
      | error e' =>
        rw [hdest] at herr
        have he' : e' = .InvalidSurface width height depth bytes_per_pixel mipmap_count := by
          injection herr
        obtain ⟨a, b, hab⟩ := surface_destination_error_shape hdest
        rw [he'] at hab
        cases hab
      | ok r =>
        rw [hdest] at herr
        obtain ⟨a, b, hab⟩ := swizzle_surface_inner_error_shape herr
        cases hab
    · intro hcond
      rw [swizzle_surface, if_neg hnz, hval, if_pos hcond]
      rfl
  · constructor
    · intro herr
      by_contra hcond
      rw [deswizzle_surface, if_neg hnz, hval, if_neg hcond] at herr
      simp only [bind, Except.bind] at herr
      cases hdest : surface_destination true width height depth block_dim blockHeightMip0
          bytes_per_pixel mipmap_count layer_count source with
      | error e' =>
        rw [hdest] at herr
        have he' : e' = .InvalidSurface width height depth bytes_per_pixel mipmap_count := by
          injection herr
        obtain ⟨a, b, hab⟩ := surface_destination_error_shape hdest
        rw [he'] at hab
        cases hab
      | ok r =>
        rw [hdest] at herr
        obtain ⟨a, b, hab⟩ := swizzle_surface_inner_error_shape herr
        cases hab
    · intro hcond
      rw [deswizzle_surface, if_neg hnz, hval, if_pos hcond]
      rfl

theorem c3_witness :
    swizzle_surface 65535 65535 65535 [0, 0, 0, 0] BlockDim.uncompressed none 4 1 1 =
        .error (.InvalidSurface 65535 65535 65535 4 1) ∧
      deswizzle_surface 65535 65535 65535 [0, 0, 0, 0] BlockDim.uncompressed none 4 1 1 =
        .error (.InvalidSurface 65535 65535 65535 4 1) := by
  have h := c3_invalid_surface 65535 65535 65535 [0, 0, 0, 0] BlockDim.uncompressed none 4 1 1
    (by decide) (by decide) (by decide) (by decide) (by decide) (by decide)
  exact ⟨h.1.mpr (by decide), h.2.mpr (by decide)⟩

/-! ### Block-height selection (C9) -/

theorem selectBlockHeightMip0_of_ne_one {depth : Nat} (hd : depth ≠ 1)
    (blockHeightMip0 : Option BlockHeight) (height block_dim_height : Nat) :
    selectBlockHeightMip0 depth blockHeightMip0 height block_dim_height = .One := by
  rw [selectBlockHeightMip0, if_neg hd]

theorem selectBlockHeightMip0_none_one (height block_dim_height : Nat) :
    selectBlockHeightMip0 1 none height block_dim_height =
      block_height_mip0 (div_round_up height block_dim_height) := rfl

theorem selectBlockHeightMip0_some_one (b : BlockHeight) (height block_dim_height : Nat) :
    selectBlockHeightMip0 1 (some b) height block_dim_height = b := rfl

theorem surface_fns_bh0_congr (width height depth : Nat) (source : List UInt8)
    (block_dim : BlockDim) (bho1 bho2 : Option BlockHeight)
    (bytes_per_pixel mipmap_count layer_count : Nat)
    (hsel : selectBlockHeightMip0 depth bho1 height block_dim.height =
      selectBlockHeightMip0 depth bho2 height block_dim.height) :
    swizzled_surface_size width height depth block_dim bho1 bytes_per_pixel mipmap_count
        layer_count =
      swizzled_surface_size width height depth block_dim bho2 bytes_per_pixel mipmap_count
        layer_count ∧
    swizzle_surface width height depth source block_dim bho1 bytes_per_pixel mipmap_count
        layer_count =
      swizzle_surface width height depth source block_dim bho2 bytes_per_pixel mipmap_count
        layer_count ∧
    deswizzle_surface width height depth source block_dim bho1 bytes_per_pixel mipmap_count
        layer_count =
      deswizzle_surface width height depth source block_dim bho2 bytes_per_pixel mipmap_count
        layer_count := by
  have hsize : swizzled_surface_size width height depth block_dim bho1 bytes_per_pixel
      mipmap_count layer_count =
      swizzled_surface_size width height depth block_dim bho2 bytes_per_pixel mipmap_count
        layer_count := by
    simp only [swizzled_surface_size, hsel]
  have hdest : ∀ dz : Bool, surface_destination dz width height depth block_dim bho1
      bytes_per_pixel mipmap_count layer_count source =
      surface_destination dz width height depth block_dim bho2 bytes_per_pixel mipmap_count
        layer_count source := by
    intro dz
    simp only [surface_destination, hsize]
  have hinner : ∀ (dz : Bool) (r : List UInt8), swizzle_surface_inner dz width height depth
      source r block_dim bho1 bytes_per_pixel mipmap_count layer_count =
      swizzle_surface_inner dz width height depth source r block_dim bho2 bytes_per_pixel
        mipmap_count layer_count := by
    intro dz r
    simp only [swizzle_surface_inner, hsel]
  refine ⟨hsize, ?_, ?_⟩
  · simp only [swizzle_surface, hdest, hinner]
  · simp only [deswizzle_surface, hdest, hinner]

/-- C9: the mip-0 block height used by the surface functions and
`swizzled_surface_size` is the caller's `block_height_mip0` only for
`depth = 1`, is inferred as `block_height_mip0 (div_round_up height
block_dim.height)` when the caller passes `none` (and `depth = 1`), and is
forced to `BlockHeight::One` for every `depth ≠ 1` whatever the caller
passed. -/
theorem c9_block_height_mip0_selection :
    (∀ (width height depth : Nat) (source : List UInt8) (block_dim : BlockDim)
        (blockHeightMip0 : Option BlockHeight)
        (bytes_per_pixel mipmap_count layer_count : Nat), depth ≠ 1 →
      swizzled_surface_size width height depth block_dim blockHeightMip0 bytes_per_pixel
          mipmap_count layer_count =
        swizzled_surface_size width height depth block_dim (some .One) bytes_per_pixel
          mipmap_count layer_count ∧
      swizzle_surface width height depth source block_dim blockHeightMip0 bytes_per_pixel
          mipmap_count layer_count =
        swizzle_surface width height depth source block_dim (some .One) bytes_per_pixel
          mipmap_count layer_count ∧
      deswizzle_surface width height depth source block_dim blockHeightMip0 bytes_per_pixel
          mipmap_count layer_count =
        deswizzle_surface width height depth source block_dim (some .One) bytes_per_pixel
          mipmap_count layer_count) ∧
    (∀ (width height : Nat) (source : List UInt8) (block_dim : BlockDim)
        (bytes_per_pixel mipmap_count layer_count : Nat),
      swizzled_surface_size width height 1 block_dim none bytes_per_pixel mipmap_count
          layer_count =
        swizzled_surface_size width height 1 block_dim
          (some (block_height_mip0 (div_round_up height block_dim.height))) bytes_per_pixel
          mipmap_count layer_count ∧
      swizzle_surface width height 1 source block_dim none bytes_per_pixel mipmap_count
          layer_count =
        swizzle_surface width height 1 source block_dim
          (some (block_height_mip0 (div_round_up height block_dim.height))) bytes_per_pixel
          mipmap_count layer_count ∧
      deswizzle_surface width height 1 source block_dim none bytes_per_pixel mipmap_count
          layer_count =
        deswizzle_surface width height 1 source block_dim
          (some (block_height_mip0 (div_round_up height block_dim.height))) bytes_per_pixel
          mipmap_count layer_count) := by
  constructor
  · intro width height depth source block_dim bho bpp mc lc hd
    exact surface_fns_bh0_congr width height depth source block_dim bho (some .One) bpp mc lc
      (by rw [selectBlockHeightMip0_of_ne_one hd, selectBlockHeightMip0_of_ne_one hd])
  · intro width height source block_dim bpp mc lc
    exact surface_fns_bh0_congr width height 1 source block_dim none
      (some (block_height_mip0 (div_round_up height block_dim.height))) bpp mc lc
      (by rw [selectBlockHeightMip0_none_one, selectBlockHeightMip0_some_one])

theorem c9_witness :
    swizzled_surface_size 16 16 16 BlockDim.uncompressed (some .Sixteen) 4 1 1 =
        swizzled_surface_size 16 16 16 BlockDim.uncompressed (some .One) 4 1 1 ∧
      swizzle_surface 16 16 16 (List.replicate 16384 0) BlockDim.uncompressed (some .Sixteen)
          4 1 1 =
        swizzle_surface 16 16 16 (List.replicate 16384 0) BlockDim.uncompressed (some .One)
          4 1 1 ∧
      deswizzle_surface 16 16 16 (List.replicate 16384 0) BlockDim.uncompressed
          (some .Sixteen) 4 1 1 =
        deswizzle_surface 16 16 16 (List.replicate 16384 0) BlockDim.uncompressed (some .One)
          4 1 1 :=
  c9_block_height_mip0_selection.1 16 16 16 (List.replicate 16384 0) BlockDim.uncompressed
    (some .Sixteen) 4 1 1 (by decide)

/-! ### The complete-GOB fast path (C7) -/

theorem flatMap_congr_left {α β : Type} {l : List α} {f g : α → List β}
    (h : ∀ a ∈ l, f a = g a) : l.flatMap f = l.flatMap g := by
  induction l with
  | nil => rfl
  | cons a l ih =>
    simp only [List.flatMap_cons]
    rw [h a (List.mem_cons_self _ _), ih fun a' ha' => h a' (List.mem_cons_of_mem _ ha')]

theorem gob_row_offset_fact :
    ∀ y < 8, ∀ j < 16,
      gob_offset (48 + j) y = GOB_ROW_OFFSETS.getD y 0 + 288 + j ∧
      gob_offset (32 + j) y = GOB_ROW_OFFSETS.getD y 0 + 256 + j ∧
      gob_offset (16 + j) y = GOB_ROW_OFFSETS.getD y 0 + 32 + j ∧
      gob_offset j y = GOB_ROW_OFFSETS.getD y 0 + j := by decide

theorem deswizzle_gob_row_moves_eq (d g r y : Nat) (hy : y < 8) :
    deswizzle_gob_row_moves (d + r * y) (g + GOB_ROW_OFFSETS.getD y 0) =
      ((((List.range 16).map fun j => 48 + j) ++ ((List.range 16).map fun j => 32 + j) ++
          ((List.range 16).map fun j => 16 + j) ++ (List.range 16)).map fun x =>
        (d + y * r + x, g + gob_offset x y)) := by
  unfold deswizzle_gob_row_moves
  simp only [List.map_append, List.map_map]
  congr 1
  · congr 1
    · congr 1
      · refine List.map_congr_left fun j hj => ?_
        have hj16 := List.mem_range.mp hj
        have hfact := (gob_row_offset_fact y hy j hj16).1
        simp only [Function.comp]
        rw [hfact, Prod.mk.injEq]
        exact ⟨by ring, by ring⟩
      · refine List.map_congr_left fun j hj => ?_
        have hj16 := List.mem_range.mp hj
        have hfact := (gob_row_offset_fact y hy j hj16).2.1
        simp only [Function.comp]
        rw [hfact, Prod.mk.injEq]
        exact ⟨by ring, by ring⟩
    · refine List.map_congr_left fun j hj => ?_
      have hj16 := List.mem_range.mp hj
      have hfact := (gob_row_offset_fact y hy j hj16).2.2.1
      simp only [Function.comp]
      rw [hfact, Prod.mk.injEq]
      exact ⟨by ring, by ring⟩
  · refine List.map_congr_left fun j hj => ?_
    have hj16 := List.mem_range.mp hj
    have hfact := (gob_row_offset_fact y hy j hj16).2.2.2
    rw [hfact, Prod.mk.injEq]
    exact ⟨by ring, by ring⟩

theorem enum_GOB_ROW_OFFSETS :
    GOB_ROW_OFFSETS.enum = (List.range 8).map fun i => (i, GOB_ROW_OFFSETS.getD i 0) := by
  decide

theorem deswizzle_complete_gob_moves_eq (d g r : Nat) :
    deswizzle_complete_gob_moves d g r =
      fastGobEnum.map fun xy => (d + xy.2 * r + xy.1, g + gob_offset xy.1 xy.2) := by
  unfold deswizzle_complete_gob_moves fastGobEnum
  rw [← List.flatMap_def, enum_GOB_ROW_OFFSETS, List.flatMap_map, List.map_flatMap]
  refine flatMap_congr_left fun y hy => ?_
  have hy8 := List.mem_range.mp hy
  rw [List.map_map]
  exact deswizzle_gob_row_moves_eq d g r y hy8

theorem rowMajor_map_moves (d g r : Nat) :
    (rowMajorGobEnum.map fun xy => (d + xy.2 * r + xy.1, g + gob_offset xy.1 xy.2)) =
      (List.range 8).flatMap fun y => (List.range 64).map fun x =>
        (d + y * r + x, g + gob_offset x y) := by
  unfold rowMajorGobEnum
  rw [List.map_flatMap]
  refine flatMap_congr_left fun y hy => ?_
  rw [List.map_map]
  rfl

theorem fastGobEnum_perm_rowMajor : List.Perm fastGobEnum rowMajorGobEnum := by decide

theorem complete_gob_moves_perm (d g r : Nat) :
    List.Perm (deswizzle_complete_gob_moves d g r)
      ((List.range 8).flatMap fun y => (List.range 64).map fun x =>
        (d + y * r + x, g + gob_offset x y)) := by
  rw [deswizzle_complete_gob_moves_eq, ← rowMajor_map_moves]
  exact fastGobEnum_perm_rowMajor.map _

theorem swizzle_complete_gob_moves_swap (d g r : Nat) :
    swizzle_complete_gob_moves g d r = (deswizzle_complete_gob_moves d g r).map Prod.swap := by
  unfold swizzle_complete_gob_moves deswizzle_complete_gob_moves
  rw [← List.flatMap_def, ← List.flatMap_def, List.map_flatMap]
  refine flatMap_congr_left fun io _ => ?_
  unfold swizzle_gob_row_moves deswizzle_gob_row_moves
  simp only [List.map_append, List.map_map]
  rfl

/-- C7: on a complete 64×8 GOB the fast path's fixed permutation (rows at GOB
offsets 0, 16, 64, 80, 128, 144, 192, 208, one 16-byte half at +0 and one at
+256 per row) transfers exactly the bytes that the per-byte `gob_offset` map
over the full 64×8 rectangle transfers, and `swizzle_complete_gob` is the
same permutation with source and destination swapped. -/
theorem c7_complete_gob_fast_path :
    ∀ (dst_base src_base row_size_in_bytes : Nat),
      List.Perm (deswizzle_complete_gob_moves dst_base src_base row_size_in_bytes)
        ((List.range 8).flatMap fun y => (List.range 64).map fun x =>
          (dst_base + y * row_size_in_bytes + x, src_base + gob_offset x y)) ∧
      swizzle_complete_gob_moves src_base dst_base row_size_in_bytes =
        (deswizzle_complete_gob_moves dst_base src_base row_size_in_bytes).map Prod.swap :=
  fun d g r => ⟨complete_gob_moves_perm d g r, swizzle_complete_gob_moves_swap d g r⟩

/-! ### Fast path dispatch (C6) -/

theorem swizzle_deswizzle_gob_moves_mem (x0 y0 z0 width height bytes_per_pixel gob_address : Nat)
    (m : Nat × Nat) :
    m ∈ swizzle_deswizzle_gob_moves x0 y0 z0 width height bytes_per_pixel gob_address ↔
      ∃ y < 8, ∃ x < 64, y0 + y < height ∧ x0 + x < width * bytes_per_pixel ∧
        m = (z0 * width * height * bytes_per_pixel +
              (y0 + y) * (width * bytes_per_pixel) + x0 + x,
            gob_address + gob_offset x y) := by
  unfold swizzle_deswizzle_gob_moves GOB_HEIGHT_IN_BYTES GOB_WIDTH_IN_BYTES
  simp only [List.mem_flatMap, List.mem_filterMap, List.mem_range]
  constructor
  · rintro ⟨y, hy, x, hx, hfx⟩
    by_cases hc : y0 + y < height ∧ x0 + x < width * bytes_per_pixel
    · rw [if_pos hc] at hfx
      exact ⟨y, hy, x, hx, hc.1, hc.2, (Option.some.inj hfx).symm⟩
    · rw [if_neg hc] at hfx
      cases hfx
  · rintro ⟨y, hy, x, hx, h1, h2, hm⟩
    exact ⟨y, hy, x, hx, by rw [if_pos ⟨h1, h2⟩, hm]⟩

/-- C6 counterexample: at `width * bytes_per_pixel = 64`, `height = 16` the
GOB step at `(x0, y0) = (0, 0)` is a legal loop step satisfying the claim's
conditions `x0 + 64 ≤ width*bpp` and `y0 + 8 ≤ height`, yet the code's test
(strict `<` on both sides) sends it to the slow path. -/
theorem c6_counterexample :
    (0 ∈ stepBy (64 * 1) GOB_WIDTH_IN_BYTES) ∧ (0 ∈ stepBy 16 GOB_HEIGHT_IN_BYTES) ∧
      (0 + 64 ≤ 64 * 1 ∧ 0 + 8 ≤ 16) ∧ ¬usesFastPath 64 1 16 0 0 := by decide

/-- C6 (amended): the whole-GOB fast path is taken exactly when
`x0 + 64 < width*bytes_per_pixel` and `y0 + 8 < height` (strict, so GOBs
flush with the right or bottom edge also take the slow path); otherwise the
per-byte slow path iterates the 64×8 rectangle, skipping bytes outside the
surface bounds and using `gob_offset` for each byte. -/
theorem c6_fast_slow_dispatch :
    ∀ (width bytes_per_pixel height x0 y0 : Nat),
      (usesFastPath width bytes_per_pixel height x0 y0 ↔
        x0 + 64 < width * bytes_per_pixel ∧ y0 + 8 < height) ∧
      ∀ (z0 gob_address : Nat) (m : Nat × Nat),
        m ∈ swizzle_deswizzle_gob_moves x0 y0 z0 width height bytes_per_pixel gob_address ↔
          ∃ y < 8, ∃ x < 64, y0 + y < height ∧ x0 + x < width * bytes_per_pixel ∧
            m = (z0 * width * height * bytes_per_pixel +
                  (y0 + y) * (width * bytes_per_pixel) + x0 + x,
                gob_address + gob_offset x y) := by
  intro width bytes_per_pixel height x0 y0
  constructor
  · unfold usesFastPath GOB_WIDTH_IN_BYTES GOB_HEIGHT_IN_BYTES
    exact Iff.rfl
  · intro z0 gob_address m
    exact swizzle_deswizzle_gob_moves_mem x0 y0 z0 width height bytes_per_pixel gob_address m

/-! ### Characterizing the 2D single-mip transform (C1) -/

theorem stepBy_mem {bound step v : Nat} :
    v ∈ stepBy bound step ↔ ∃ i < div_round_up bound step, v = i * step := by
  unfold stepBy
  simp only [List.mem_map, List.mem_range]
  constructor
  · rintro ⟨i, hi, rfl⟩
    exact ⟨i, hi, rfl⟩
  · rintro ⟨i, hi, rfl⟩
    exact ⟨i, hi, rfl⟩

theorem div_lt_div_round_up {a b d : Nat} (hd : 0 < d) (h : a < b) :
    a / d < div_round_up b d := by
  unfold div_round_up
  have hb : 0 < b := by omega
  have hsum : b + d - 1 = b - 1 + d := by omega
  rw [hsum, Nat.add_div_right _ hd]
  have : a / d ≤ (b - 1) / d := Nat.div_le_div_right (by omega)
  omega

theorem land_zero_zero : Nat.land 0 0 = 0 := by decide

theorem gob_address_eq_2d (w bpp n : Nat) (hn : 0 < n) (ss k q x y : Nat)
    (hx : x < 64) (hy : y < 8) :
    gob_address_z 0 n 1 ss +
        gob_address_y (q * GOB_HEIGHT_IN_BYTES) (GOB_HEIGHT_IN_BYTES * n)
          (GOB_SIZE_IN_BYTES * 1 * n * 1) (width_in_gobs w bpp) +
        gob_address_x (k * GOB_WIDTH_IN_BYTES) (GOB_SIZE_IN_BYTES * 1 * n * 1) +
        gob_offset x y =
      swizzledIdx w bpp n (k * GOB_WIDTH_IN_BYTES + x) (q * GOB_HEIGHT_IN_BYTES + y) := by
  simp only [gob_address_z, gob_address_y, gob_address_x, swizzledIdx, GOB_HEIGHT_IN_BYTES,
    GOB_WIDTH_IN_BYTES, GOB_SIZE_IN_BYTES]
  rw [land_zero_zero]
  have e1 : (q * 8 + y) / 8 = q := by omega
  have e2 : (q * 8 + y) % 8 = y := by omega
  have e3 : (k * 64 + x) / 64 = k := by omega
  have e4 : (k * 64 + x) % 64 = x := by omega
  have e5 : q * 8 / (8 * n) = q / n := by
    rw [Nat.mul_comm q 8, Nat.mul_div_mul_left _ _ (by omega : 0 < 8)]
  have e6 : q * 8 % (8 * n) / 8 = q % n := by
    rw [Nat.mul_comm q 8, Nat.mul_mod_mul_left, Nat.mul_div_cancel_left _ (by omega : 0 < 8)]
  have e7 : k * 64 / 64 = k := by omega
  rw [e1, e2, e3, e4, e5, e6, e7]
  ring

theorem gob_step_mem (w h bpp z0 g x0 y0 : Nat) (m : Nat × Nat) :
    m ∈ (if usesFastPath w bpp h x0 y0 then
        deswizzle_complete_gob_moves (z0 * w * h * bpp + y0 * (w * bpp) + x0) g (w * bpp)
      else swizzle_deswizzle_gob_moves x0 y0 z0 w h bpp g) ↔
      ∃ y < 8, ∃ x < 64, y0 + y < h ∧ x0 + x < w * bpp ∧
        m = (z0 * w * h * bpp + (y0 + y) * (w * bpp) + x0 + x, g + gob_offset x y) := by
  split
  · rename_i hfast
    unfold usesFastPath GOB_WIDTH_IN_BYTES GOB_HEIGHT_IN_BYTES at hfast
    obtain ⟨hxf, hyf⟩ := hfast
    rw [(complete_gob_moves_perm _ _ _).mem_iff]
    simp only [List.mem_flatMap, List.mem_range, List.mem_map]
    constructor
    · rintro ⟨y, hy, x, hx, heq⟩
      refine ⟨y, hy, x, hx, by omega, by omega, ?_⟩
      rw [← heq, Prod.mk.injEq]
      exact ⟨by ring, rfl⟩
    · rintro ⟨y, hy, x, hx, hb1, hb2, hm⟩
      refine ⟨y, hy, x, hx, ?_⟩
      rw [hm, Prod.mk.injEq]
      exact ⟨by ring, rfl⟩
  · exact swizzle_deswizzle_gob_moves_mem x0 y0 z0 w h bpp g m

theorem swizzle_inner_moves_mem_2d (w h bpp : Nat) (bh : BlockHeight) (m : Nat × Nat) :
    m ∈ swizzle_inner_moves w h 1 bh 1 bpp ↔
      ∃ xb, xb < w * bpp ∧ ∃ Y, Y < h ∧
        m = (linearIdx w bpp xb Y, swizzledIdx w bpp bh.toNat xb Y) := by
  have hn := bh.toNat_pos
  have hr1 : List.range 1 = [0] := rfl
  simp only [swizzle_inner_moves, hr1, List.flatMap_cons, List.flatMap_nil, List.append_nil,
    List.mem_flatMap]
  constructor
  · rintro ⟨y0, hy0, x0, hx0, hm⟩
    obtain ⟨q, hq, rfl⟩ := stepBy_mem.mp hy0
    obtain ⟨k, hk, rfl⟩ := stepBy_mem.mp hx0
    rw [gob_step_mem] at hm
    obtain ⟨y, hy, x, hx, hb1, hb2, rfl⟩ := hm
    refine ⟨k * GOB_WIDTH_IN_BYTES + x, hb2, q * GOB_HEIGHT_IN_BYTES + y, hb1, ?_⟩
    rw [Prod.mk.injEq]
    constructor
    · unfold linearIdx
      ring
    · exact gob_address_eq_2d w bpp bh.toNat hn
        (slice_size bh.toNat 1 (width_in_gobs w bpp) h) k q x y hx hy
  · rintro ⟨xb, hxb, Y, hY, rfl⟩
    have h1 : Y / 8 * GOB_HEIGHT_IN_BYTES + Y % 8 = Y := by
      unfold GOB_HEIGHT_IN_BYTES
      omega
    have h2 : xb / 64 * GOB_WIDTH_IN_BYTES + xb % 64 = xb := by
      unfold GOB_WIDTH_IN_BYTES
      omega
    refine ⟨Y / 8 * GOB_HEIGHT_IN_BYTES, ?_, xb / 64 * GOB_WIDTH_IN_BYTES, ?_, ?_⟩
    · exact stepBy_mem.mpr ⟨Y / 8, by
        unfold GOB_HEIGHT_IN_BYTES
        exact div_lt_div_round_up (by omega) hY, rfl⟩
    · exact stepBy_mem.mpr ⟨xb / 64, by
        unfold GOB_WIDTH_IN_BYTES
        exact div_lt_div_round_up (by omega) hxb, rfl⟩
    · rw [gob_step_mem]
      refine ⟨Y % 8, by omega, xb % 64, by omega, ?_, ?_, ?_⟩
      · unfold GOB_HEIGHT_IN_BYTES
        omega
      · unfold GOB_WIDTH_IN_BYTES
        omega
      · rw [Prod.mk.injEq]
        constructor
        · rw [h1]
          unfold linearIdx GOB_WIDTH_IN_BYTES
          simp only [Nat.zero_mul, Nat.zero_add]
          omega
        · conv_lhs => rw [← h1, ← h2]
          exact (gob_address_eq_2d w bpp bh.toNat hn
            (slice_size bh.toNat 1 (width_in_gobs w bpp) h) (xb / 64) (Y / 8) (xb % 64) (Y % 8)
            (by omega) (by omega)).symm

theorem width_in_gobs_pos {w bpp : Nat} (h : 0 < w * bpp) : 0 < width_in_gobs w bpp := by
  unfold width_in_gobs div_round_up GOB_WIDTH_IN_BYTES
  omega

theorem swizzledIdx_decode (w bpp n : Nat) (hn : 0 < n) (xb Y : Nat) (hxb : xb < w * bpp) :
    64 * (swizzledIdx w bpp n xb Y / 512 / n % width_in_gobs w bpp) +
        gobOffsetInvX (swizzledIdx w bpp n xb Y % 512) = xb ∧
      8 * (n * (swizzledIdx w bpp n xb Y / 512 / n / width_in_gobs w bpp) +
        swizzledIdx w bpp n xb Y / 512 % n) +
        gobOffsetInvY (swizzledIdx w bpp n xb Y % 512) = Y := by
  have hwg : 0 < width_in_gobs w bpp := width_in_gobs_pos (by omega)
  have hd1 : xb / 64 < width_in_gobs w bpp := by
    unfold width_in_gobs GOB_WIDTH_IN_BYTES
    exact div_lt_div_round_up (by omega) hxb
  have hofflt : gob_offset (xb % 64) (Y % 8) < 512 :=
    gob_offset_lt _ (Nat.mod_lt _ (by omega)) _ (Nat.mod_lt _ (by omega))
  obtain ⟨hinvx, hinvy⟩ :=
    gobOffsetInv_gob_offset (xb % 64) (Nat.mod_lt _ (by omega)) (Y % 8) (Nat.mod_lt _ (by omega))
  have hA : swizzledIdx w bpp n xb Y =
      512 * (Y / 8 % n + n * (xb / 64 + width_in_gobs w bpp * (Y / 8 / n))) +
        gob_offset (xb % 64) (Y % 8) := by
    unfold swizzledIdx
    ring
  have hmod : swizzledIdx w bpp n xb Y % 512 = gob_offset (xb % 64) (Y % 8) := by
    rw [hA, Nat.mul_add_mod, Nat.mod_eq_of_lt hofflt]
  have hdiv : swizzledIdx w bpp n xb Y / 512 =
      Y / 8 % n + n * (xb / 64 + width_in_gobs w bpp * (Y / 8 / n)) := by
    rw [hA, Nat.mul_add_div (by omega), Nat.div_eq_of_lt hofflt, Nat.add_zero]
  have hGmod : swizzledIdx w bpp n xb Y / 512 % n = Y / 8 % n := by
    rw [hdiv, Nat.add_mul_mod_self_left]
    exact Nat.mod_eq_of_lt (Nat.mod_lt _ hn)
  have hGdiv : swizzledIdx w bpp n xb Y / 512 / n =
      xb / 64 + width_in_gobs w bpp * (Y / 8 / n) := by
    rw [hdiv, Nat.add_mul_div_left _ _ hn, Nat.div_eq_of_lt (Nat.mod_lt _ hn), Nat.zero_add]
  have hXmod : swizzledIdx w bpp n xb Y / 512 / n % width_in_gobs w bpp = xb / 64 := by
    rw [hGdiv, Nat.add_mul_mod_self_left, Nat.mod_eq_of_lt hd1]
  have hXdiv : swizzledIdx w bpp n xb Y / 512 / n / width_in_gobs w bpp = Y / 8 / n := by
    rw [hGdiv, Nat.add_mul_div_left _ _ hwg, Nat.div_eq_of_lt hd1, Nat.zero_add]
  constructor
  · rw [hXmod, hmod, hinvx]
    omega
  · rw [hXdiv, hGmod, hmod, hinvy]
    have := Nat.div_add_mod (Y / 8) n
    omega

theorem swizzledIdx_inj {w bpp n : Nat} (hn : 0 < n) {xb Y xb' Y' : Nat}
    (hxb : xb < w * bpp) (hxb' : xb' < w * bpp)
    (h : swizzledIdx w bpp n xb Y = swizzledIdx w bpp n xb' Y') : xb = xb' ∧ Y = Y' := by
  obtain ⟨hx1, hy1⟩ := swizzledIdx_decode w bpp n hn xb Y hxb
  obtain ⟨hx2, hy2⟩ := swizzledIdx_decode w bpp n hn xb' Y' hxb'
  rw [h] at hx1 hy1
  exact ⟨hx1.symm.trans hx2, hy1.symm.trans hy2⟩

theorem swizzledIdx_lt (w h bpp : Nat) (bh : BlockHeight) (xb Y : Nat)
    (hxb : xb < w * bpp) (hY : Y < h) :
    swizzledIdx w bpp bh.toNat xb Y < swizzled_mip_size w h 1 bh bpp := by
  set n := bh.toNat with hnd
  have hn := bh.toNat_pos
  set wg := width_in_gobs w bpp with hwgd
  set hb := height_in_blocks h n with hhbd
  have hofflt : gob_offset (xb % 64) (Y % 8) < 512 :=
    gob_offset_lt _ (Nat.mod_lt _ (by omega)) _ (Nat.mod_lt _ (by omega))
  have hd0 : Y / 8 % n < n := Nat.mod_lt _ hn
  have hd1 : xb / 64 < wg := by
    rw [hwgd]
    unfold width_in_gobs GOB_WIDTH_IN_BYTES
    exact div_lt_div_round_up (by omega) hxb
  have hd2 : Y / 8 / n < hb := by
    rw [hhbd]
    unfold height_in_blocks GOB_HEIGHT_IN_BYTES
    rw [Nat.div_div_eq_div_mul, Nat.mul_comm 8 n]
    exact div_lt_div_round_up (by positivity) hY
  have hsize : swizzled_mip_size w h 1 bh bpp = 512 * (n * (wg * hb)) := by
    have hbd1 : block_depth 1 = 1 := by decide
    unfold swizzled_mip_size round_up GOB_SIZE_IN_BYTES GOB_WIDTH_IN_BYTES GOB_HEIGHT_IN_BYTES
    rw [hbd1]
    rw [← hnd, ← hwgd, ← hhbd]
    ring
  have hA : swizzledIdx w bpp n xb Y =
      512 * (Y / 8 % n + n * (xb / 64 + wg * (Y / 8 / n))) + gob_offset (xb % 64) (Y % 8) := by
    unfold swizzledIdx
    rw [← hwgd]
    ring
  rw [hA, hsize]
  have hG : Y / 8 % n + n * (xb / 64 + wg * (Y / 8 / n)) + 1 ≤ n * (wg * hb) := by
    calc Y / 8 % n + n * (xb / 64 + wg * (Y / 8 / n)) + 1
        ≤ n + n * (xb / 64 + wg * (Y / 8 / n)) := by omega
      _ = n * (xb / 64 + 1 + wg * (Y / 8 / n)) := by ring
      _ ≤ n * (wg + wg * (Y / 8 / n)) := Nat.mul_le_mul_left n (by
          have := Nat.mul_le_mul_left wg (by omega : Y / 8 / n + 1 ≤ hb)
          omega)
      _ = n * (wg * (Y / 8 / n + 1)) := by ring
      _ ≤ n * (wg * hb) := Nat.mul_le_mul_left n (Nat.mul_le_mul_left wg (by omega))
  calc 512 * (Y / 8 % n + n * (xb / 64 + wg * (Y / 8 / n))) + gob_offset (xb % 64) (Y % 8)
      < 512 * (Y / 8 % n + n * (xb / 64 + wg * (Y / 8 / n))) + 512 := by omega
    _ = 512 * (Y / 8 % n + n * (xb / 64 + wg * (Y / 8 / n)) + 1) := by ring
    _ ≤ 512 * (n * (wg * hb)) := Nat.mul_le_mul_left 512 hG

theorem linearIdx_lt {w h bpp xb Y : Nat} (hxb : xb < w * bpp) (hY : Y < h) :
    linearIdx w bpp xb Y < deswizzled_mip_size w h 1 bpp := by
  unfold linearIdx deswizzled_mip_size
  calc Y * (w * bpp) + xb < Y * (w * bpp) + w * bpp := by omega
    _ = (Y + 1) * (w * bpp) := by ring
    _ ≤ h * (w * bpp) := Nat.mul_le_mul_right _ (by omega)
    _ = w * h * 1 * bpp := by ring

theorem linearIdx_inj {w bpp : Nat} {xb Y xb' Y' : Nat}
    (hxb : xb < w * bpp) (hxb' : xb' < w * bpp)
    (h : linearIdx w bpp xb Y = linearIdx w bpp xb' Y') : xb = xb' ∧ Y = Y' := by
  have hwb : 0 < w * bpp := by omega
  unfold linearIdx at h
  have e1 : (Y * (w * bpp) + xb) % (w * bpp) = xb := by
    rw [Nat.mul_comm Y, Nat.mul_add_mod, Nat.mod_eq_of_lt hxb]
  have e1' : (Y' * (w * bpp) + xb') % (w * bpp) = xb' := by
    rw [Nat.mul_comm Y', Nat.mul_add_mod, Nat.mod_eq_of_lt hxb']
  have e2 : (Y * (w * bpp) + xb) / (w * bpp) = Y := by
    rw [Nat.mul_comm Y, Nat.mul_add_div hwb, Nat.div_eq_of_lt hxb, Nat.add_zero]
  have e2' : (Y' * (w * bpp) + xb') / (w * bpp) = Y' := by
    rw [Nat.mul_comm Y', Nat.mul_add_div hwb, Nat.div_eq_of_lt hxb', Nat.add_zero]
  rw [h] at e1 e2
  exact ⟨e1.symm.trans e1', e2.symm.trans e2'⟩

theorem block_depth_one : block_depth 1 = 1 := by decide

theorem swizzle_block_linear_2d_ok (w h bpp : Nat) (bh : BlockHeight) (x : List UInt8)
    (hx : x.length = deswizzled_mip_size w h 1 bpp) :
    swizzle_block_linear w h 1 x bh bpp =
      .ok (applyMoves x ((swizzle_inner_moves w h 1 bh 1 bpp).map Prod.swap)
        (List.replicate (swizzled_mip_size w h 1 bh bpp) 0)) := by
  have hnlt : ¬x.length < deswizzled_mip_size w h 1 bpp := by omega
  simp only [swizzle_block_linear, swizzle_inner, hnlt, if_false, block_depth_one,
    Bool.false_eq_true]

theorem deswizzle_block_linear_2d_ok (w h bpp : Nat) (bh : BlockHeight) (y : List UInt8)
    (hy : y.length = swizzled_mip_size w h 1 bh bpp) :
    deswizzle_block_linear w h 1 y bh bpp =
      .ok (applyMoves y (swizzle_inner_moves w h 1 bh 1 bpp)
        (List.replicate (deswizzled_mip_size w h 1 bpp) 0)) := by
  have hnlt : ¬y.length < swizzled_mip_size w h 1 bh bpp := by omega
  simp only [deswizzle_block_linear, swizzle_inner, hnlt, if_false, block_depth_one, if_true]

/-- C1 (amended): for every 2D shape, tiling an input of the exact deswizzled
size succeeds and untiling the result returns the input unchanged; and
untiling then retiling returns any buffer of the exact swizzled size that is
itself the output of tiling (the second direction cannot hold for arbitrary
buffers, because padding bytes of the swizzled layout are not preserved — see
the counterexample). -/
theorem c1_round_trip (width height bytes_per_pixel : Nat) (block_height : BlockHeight)
    (hw : 0 < width) (hh : 0 < height) (hbpp : 0 < bytes_per_pixel) :
    (∀ x : List UInt8, x.length = deswizzled_mip_size width height 1 bytes_per_pixel →
      ∃ s, swizzle_block_linear width height 1 x block_height bytes_per_pixel = .ok s ∧
        s.length = swizzled_mip_size width height 1 block_height bytes_per_pixel ∧
        deswizzle_block_linear width height 1 s block_height bytes_per_pixel = .ok x) ∧
    (∀ y : List UInt8,
      (∃ x, x.length = deswizzled_mip_size width height 1 bytes_per_pixel ∧
        swizzle_block_linear width height 1 x block_height bytes_per_pixel = .ok y) →
      ∃ d, deswizzle_block_linear width height 1 y block_height bytes_per_pixel = .ok d ∧
        swizzle_block_linear width height 1 d block_height bytes_per_pixel = .ok y) := by
  have hn := block_height.toNat_pos
  have hwb : 0 < width * bytes_per_pixel := by positivity
  have part1 : ∀ x : List UInt8,
      x.length = deswizzled_mip_size width height 1 bytes_per_pixel →
      ∃ s, swizzle_block_linear width height 1 x block_height bytes_per_pixel = .ok s ∧
        s.length = swizzled_mip_size width height 1 block_height bytes_per_pixel ∧
        deswizzle_block_linear width height 1 s block_height bytes_per_pixel = .ok x := by
    intro x hx
    set moves := swizzle_inner_moves width height 1 block_height 1 bytes_per_pixel with hmoves
    set S := applyMoves x (moves.map Prod.swap)
      (List.replicate (swizzled_mip_size width height 1 block_height bytes_per_pixel) 0)
      with hSd
    have hok := swizzle_block_linear_2d_ok width height bytes_per_pixel block_height x hx
    have hSlen : S.length = swizzled_mip_size width height 1 block_height bytes_per_pixel := by
      rw [hSd, applyMoves_length, List.length_replicate]
    have hdok := deswizzle_block_linear_2d_ok width height bytes_per_pixel block_height S hSlen
    refine ⟨S, hok, hSlen, ?_⟩
    rw [hdok]
    congr 1
    apply List.ext_getElem
    · rw [applyMoves_length, List.length_replicate, hx]
    · intro j hj1 hj2
      have hjd : j < deswizzled_mip_size width height 1 bytes_per_pixel := by
        rwa [applyMoves_length, List.length_replicate] at hj1
      have hxb : j % (width * bytes_per_pixel) < width * bytes_per_pixel := Nat.mod_lt _ hwb
      have hY : j / (width * bytes_per_pixel) < height := by
        rw [Nat.div_lt_iff_lt_mul hwb]
        have : width * height * 1 * bytes_per_pixel = height * (width * bytes_per_pixel) := by
          ring
        unfold deswizzled_mip_size at hjd
        omega
      have hjl : linearIdx width bytes_per_pixel (j % (width * bytes_per_pixel))
          (j / (width * bytes_per_pixel)) = j := by
        unfold linearIdx
        rw [Nat.mul_comm]
        exact Nat.div_add_mod j _
      have step1 : (applyMoves S moves
          (List.replicate (deswizzled_mip_size width height 1 bytes_per_pixel) 0)).getD j 0 =
          S.getD (swizzledIdx width bytes_per_pixel block_height.toNat
            (j % (width * bytes_per_pixel)) (j / (width * bytes_per_pixel))) 0 := by
        apply applyMoves_getD_unique
        · have hmm := (swizzle_inner_moves_mem_2d width height bytes_per_pixel block_height
            (linearIdx width bytes_per_pixel (j % (width * bytes_per_pixel))
              (j / (width * bytes_per_pixel)),
             swizzledIdx width bytes_per_pixel block_height.toNat
              (j % (width * bytes_per_pixel)) (j / (width * bytes_per_pixel)))).mpr
            ⟨_, hxb, _, hY, rfl⟩
          rwa [hjl] at hmm
        · intro m hm hkey
          obtain ⟨xb', hxb', Y', hY', rfl⟩ :=
            (swizzle_inner_moves_mem_2d width height bytes_per_pixel block_height m).mp hm
          have hkey' : linearIdx width bytes_per_pixel xb' Y' =
              linearIdx width bytes_per_pixel (j % (width * bytes_per_pixel))
                (j / (width * bytes_per_pixel)) := by rw [hjl]; exact hkey
          obtain ⟨hx1, hy1⟩ := linearIdx_inj hxb' hxb hkey'
          subst hx1
          subst hy1
          rw [Prod.mk.injEq]
          exact ⟨hjl, rfl⟩
        · rw [List.length_replicate]
          exact hjd
      have step2 : S.getD (swizzledIdx width bytes_per_pixel block_height.toNat
          (j % (width * bytes_per_pixel)) (j / (width * bytes_per_pixel))) 0 =
          x.getD (linearIdx width bytes_per_pixel (j % (width * bytes_per_pixel))
            (j / (width * bytes_per_pixel))) 0 := by
        rw [hSd]
        apply applyMoves_getD_unique
        · exact List.mem_map.mpr
            ⟨(linearIdx width bytes_per_pixel (j % (width * bytes_per_pixel))
                (j / (width * bytes_per_pixel)),
              swizzledIdx width bytes_per_pixel block_height.toNat
                (j % (width * bytes_per_pixel)) (j / (width * bytes_per_pixel))),
              (swizzle_inner_moves_mem_2d width height bytes_per_pixel block_height _).mpr
                ⟨_, hxb, _, hY, rfl⟩, rfl⟩
        · intro m hm hkey
          obtain ⟨m', hm', rfl⟩ := List.mem_map.mp hm
          obtain ⟨xb', hxb', Y', hY', rfl⟩ :=
            (swizzle_inner_moves_mem_2d width height bytes_per_pixel block_height m').mp hm'
          have hkey' : swizzledIdx width bytes_per_pixel block_height.toNat xb' Y' =
              swizzledIdx width bytes_per_pixel block_height.toNat
                (j % (width * bytes_per_pixel)) (j / (width * bytes_per_pixel)) := hkey
          obtain ⟨hx1, hy1⟩ := swizzledIdx_inj hn hxb' hxb hkey'
          subst hx1
          subst hy1
          rfl
        · rw [List.length_replicate]
          exact swizzledIdx_lt width height bytes_per_pixel block_height _ _ hxb hY
      calc (applyMoves S moves
            (List.replicate (deswizzled_mip_size width height 1 bytes_per_pixel) 0))[j] =
          (applyMoves S moves
            (List.replicate (deswizzled_mip_size width height 1 bytes_per_pixel) 0)).getD j 0 :=
            (List.getD_eq_getElem _ _ hj1).symm
        _ = S.getD (swizzledIdx width bytes_per_pixel block_height.toNat
              (j % (width * bytes_per_pixel)) (j / (width * bytes_per_pixel))) 0 := step1
        _ = x.getD (linearIdx width bytes_per_pixel (j % (width * bytes_per_pixel))
              (j / (width * bytes_per_pixel))) 0 := step2
        _ = x.getD j 0 := by rw [hjl]
        _ = x[j] := List.getD_eq_getElem _ _ hj2
  refine ⟨part1, ?_⟩
  rintro y ⟨x, hxlen, hxy⟩
  obtain ⟨s, hs, hslen, hds⟩ := part1 x hxlen
  have hsy : s = y := by
    rw [hs] at hxy
    injection hxy
  subst hsy
  exact ⟨x, hds, hxy⟩

theorem c1_witness :
    (0 : Nat) < 2 ∧ (0 : Nat) < 3 ∧ (0 : Nat) < 1 ∧
      ([7, 1, 2, 3, 4, 5] : List UInt8).length = deswizzled_mip_size 2 3 1 1 ∧
      ∃ s, swizzle_block_linear 2 3 1 [7, 1, 2, 3, 4, 5] BlockHeight.One 1 = .ok s ∧
        s.length = swizzled_mip_size 2 3 1 BlockHeight.One 1 ∧
        deswizzle_block_linear 2 3 1 s BlockHeight.One 1 = .ok [7, 1, 2, 3, 4, 5] :=
  ⟨by decide, by decide, by decide, by decide,
    (c1_round_trip 2 3 1 BlockHeight.One (by decide) (by decide) (by decide)).1
      [7, 1, 2, 3, 4, 5] (by decide)⟩

/-- C1 counterexample: for the 1×1×1 surface with one byte per pixel and
block height one, the swizzled buffer has 512 bytes but only offset 0 is
addressed.  A buffer `y` of the exact swizzled size whose padding byte 1 is
nonzero untiles to `[0]`, which retiles to 512 zero bytes, so
`swizzle(deswizzle(y)) ≠ Ok(y)`. -/
theorem c1_swizzle_deswizzle_counterexample :
    c1PaddingInput.length = swizzled_mip_size 1 1 1 BlockHeight.One 1 ∧
      deswizzle_block_linear 1 1 1 c1PaddingInput BlockHeight.One 1 = .ok [0] ∧
      swizzle_block_linear 1 1 1 [0] BlockHeight.One 1 = .ok (List.replicate 512 0) ∧
      List.replicate 512 (0 : UInt8) ≠ c1PaddingInput := by
  refine ⟨by decide, by decide, by decide, ?_⟩
  intro h
  have : (List.replicate 512 (0 : UInt8)).getD 1 0 = c1PaddingInput.getD 1 0 := by rw [h]
  simp [c1PaddingInput] at this

end TegraSwizzle
